import Mathlib

/-!
# VLayout: vertical panel stack with splitters

A shallow embedding of `src/js/common/vlayout.js`: the fill distribution of
`VLayout.prototype.refresh`, the cascading resize of `VLayout.prototype._resize`
and the drag-end handler `VLayout.prototype._onDragEnd` with its clamp.

Numbers are JavaScript numbers in the source; heights and pointer positions are
taken in `ℚ` here, so that the division of `refresh` is exact.
-/

set_option autoImplicit false

/-- Modelled from the spec: the panel record of `./vpanel` (imported by
`vlayout.js`, its file is not among the sources). A panel carries its current
height, the `splitter` and `autoHeight` marks and the configured bounds
`minHeight`, `maxHeight`. -/
structure VPanel where
  height : ℚ
  splitter : Bool
  autoHeight : Bool
  minHeight : ℚ
  maxHeight : ℚ
  deriving DecidableEq

namespace VPanel

/-- Modelled from the spec: `VPanel.prototype.getHeight`, the current height. -/
def getHeight (p : VPanel) : ℚ := p.height

/-- Modelled from the spec: `VPanel.prototype.setHeight(null, newHeight)`, the
layout engine writing a panel's height. -/
def setHeight (p : VPanel) (newHeight : ℚ) : VPanel := { p with height := newHeight }

/-- Modelled from the spec: `VPanel.prototype.isSplitter`. -/
def isSplitter (p : VPanel) : Bool := p.splitter

end VPanel

/-- The state kept in `this._dragData` while a splitter is being dragged
(`_onDragStart`); `splItem` is the position of the dragged item in the stack. -/
structure DragData where
  splItem : Nat
  splOffsetY : ℚ
  startY : ℚ
  minY : ℚ
  maxY : ℚ
  deriving DecidableEq

/-- The layout: `this._panels` in stack order, the container height
`this.getViewBound().height`, and `this._dragData` (`none` is `null`). -/
structure VLayout where
  panels : List VPanel
  viewHeight : ℚ
  dragData : Option DragData
  deriving DecidableEq

/-- What a handler leaves behind: it ran to its end, or a `TypeError` cut it
short; either way the layout is in the state carried. -/
inductive Outcome where
  | done (v : VLayout)
  | thrown (v : VLayout)
  deriving DecidableEq

namespace Outcome

/-- The layout a handler leaves behind. -/
def state : Outcome → VLayout
  | done v => v
  | thrown v => v

end Outcome

namespace VLayout

/-- Modelled from the spec: an item of the `./linkedlist` registry (not among the
sources) is a panel at a position of the stack; its identifier is the position. -/
def item (panels : List VPanel) (i : Nat) : Option (Nat × VPanel) :=
  panels[i]?.map fun p => (i, p)

/-- Modelled from the spec: `item.prev()`, the item before in stack order, nothing
at the head. -/
def prev (panels : List VPanel) (i : Nat) : Option (Nat × VPanel) :=
  if i = 0 then none else item panels (i - 1)

/-- Modelled from the spec: `item.next()`, the item after in stack order, nothing
at the tail. -/
def next (panels : List VPanel) (i : Nat) : Option (Nat × VPanel) :=
  item panels (i + 1)

/-- The items a `while (cursor = cursor.next())` loop (`toDown`) or a
`while (cursor = cursor.prev())` loop meets from `cursor`, in the order met. -/
def traverse (panels : List VPanel) (toDown : Bool) (cursor : Nat) : List (Nat × VPanel) :=
  if toDown then panels.enum.drop (cursor + 1) else (panels.enum.take cursor).reverse

/-- Modelled from the spec: `common.limit(value, [lo], [hi])` of `./common` (not
among the sources), `min(max(value, lo), hi)`. -/
def limit (value lo hi : ℚ) : ℚ := min (max value lo) hi

/-- The sum of the heights of a list of panels. -/
def totalHeight (panels : List VPanel) : ℚ := (panels.map VPanel.getHeight).sum

/-- The loop of `_resize` over the items still to be met, with the amount
`resizedHeight` still owed and the `resizeMap` built so far (newest entry first). -/
def resizeLoop : List (Nat × VPanel) → ℚ → List (Nat × ℚ) → List (Nat × ℚ)
  | [], _, resizeMap => resizeMap
  | (pid, panel) :: rest, resizedHeight, resizeMap =>
    if panel.isSplitter then
      resizeLoop rest resizedHeight resizeMap
    else
      let height := panel.getHeight
      let resizeTo := max 0 (height - resizedHeight)
      let resizedHeight := resizedHeight - height
      let resizeMap := (pid, resizeTo) :: resizeMap
      if resizedHeight < 0 then resizeMap else resizeLoop rest resizedHeight resizeMap

/-- The `resizeMap` that `_resize` builds: panel identifier to new height.
`none` is the `TypeError` of `cursor.data` when the item has no neighbour
on the side of `traverseMethod[+!toDown]`. -/
def resizeMap (panels : List VPanel) (splItem : Nat) (startY mouseY : ℚ) :
    Option (List (Nat × ℚ)) :=
  let diffY := startY - mouseY
  let resizedHeight := |diffY|
  let toDown := decide (mouseY > startY)
  match (if toDown then prev panels splItem else next panels splItem) with
  | none => none
  | some (pid, panel) =>
    let resizeTo := panel.getHeight + resizedHeight
    some (resizeLoop (traverse panels toDown pid) resizedHeight [(pid, resizeTo)])

/-- The deferred `util.forEach(resizeMap, ...)`: every panel with an entry gets
the height of its entry. -/
def commitItem (resizeMap : List (Nat × ℚ)) (x : Nat × VPanel) : VPanel :=
  match resizeMap.lookup x.1 with
  | some h => x.2.setHeight h
  | none => x.2

/-- The whole stack after the deferred commit of a `resizeMap`. -/
def commit (panels : List VPanel) (resizeMap : List (Nat × ℚ)) : List VPanel :=
  panels.enum.map (commitItem resizeMap)

/-- `VLayout.prototype._resize`, with the heights committed; `none` when it throws. -/
def _resize (panels : List VPanel) (splItem : Nat) (startY mouseY : ℚ) :
    Option (List VPanel) :=
  (resizeMap panels splItem startY mouseY).map (commit panels)

/-- `VLayout.prototype._getMouseY`; `pointerY` is the pointer position of the
event relative to the container. -/
def _getMouseY (dragData : DragData) (pointerY : ℚ) : ℚ :=
  limit (pointerY - dragData.splOffsetY) dragData.minY dragData.maxY

/-- `VLayout.prototype._getAsideSplitterHeightSummation`: `[upper, below]`. -/
def _getAsideSplitterHeightSummation (panels : List VPanel) (splItem : Nat) :
    Option (ℚ × ℚ) :=
  match item panels splItem with
  | none => none
  | some (_, data) =>
    let unitHeight := data.getHeight
    let upper := (traverse panels false splItem).foldl
      (fun acc x => if x.2.isSplitter then acc + unitHeight else acc) 0
    let below := (traverse panels true splItem).foldl
      (fun acc x => if x.2.isSplitter then acc + unitHeight else acc) 0
    some (upper, below)

/-- The `mouseY` that `_onDragEnd` hands to `_resize`. -/
def finalMouseY (panels : List VPanel) (dragData : DragData) (pointerY : ℚ) : Option ℚ :=
  (_getAsideSplitterHeightSummation panels dragData.splItem).map fun asideSplHeights =>
    let mouseY := _getMouseY dragData pointerY
    limit mouseY (dragData.minY + asideSplHeights.1) (dragData.maxY - asideSplHeights.2)

/-- `VLayout.prototype._onDragEnd`. -/
def _onDragEnd (v : VLayout) (pointerY : ℚ) : Outcome :=
  match v.dragData with
  | none => Outcome.thrown v
  | some dragData =>
    match finalMouseY v.panels dragData pointerY with
    | none => Outcome.thrown v
    | some mouseY =>
      match _resize v.panels dragData.splItem dragData.startY mouseY with
      | none => Outcome.thrown v
      | some panels => Outcome.done { v with panels := panels, dragData := none }

/-- The scan `this._panels.each(...)` of `refresh`: the identifiers of the panels
marked `autoHeight` are pushed on `panelToFillHeight`, the heights of the others
are added to `usedHeight`. -/
def refreshEach : List (Nat × VPanel) → List Nat × ℚ → List Nat × ℚ
  | [], acc => acc
  | (pid, panel) :: rest, (panelToFillHeight, usedHeight) =>
    if panel.autoHeight then
      refreshEach rest (panelToFillHeight ++ [pid], usedHeight)
    else
      refreshEach rest (panelToFillHeight, usedHeight + panel.getHeight)

/-- `VLayout.prototype.refresh`: every panel of `panelToFillHeight` is given
`remainHeight`. With no panel to fill the quotient is given to no panel (it is
`0` here and not a number in the source). -/
def refresh (v : VLayout) : VLayout :=
  let scan := refreshEach v.panels.enum ([], 0)
  let panelToFillHeight := scan.1
  let usedHeight := scan.2
  let remainHeight := (v.viewHeight - usedHeight) / panelToFillHeight.length
  { v with panels := commit v.panels (panelToFillHeight.map fun pid => (pid, remainHeight)) }

/-- `VLayout.prototype._onDragStart`: `splID` is the identifier read from the
pressed handle, `splOffsetY` and `mouseY` the pointer position relative to the
handle and to the container. -/
def _onDragStart (v : VLayout) (splID : Nat) (splOffsetY mouseY : ℚ) : Outcome :=
  match item v.panels splID with
  | none => Outcome.thrown v
  | some (splItem, splPanel) =>
    let splHeight := splPanel.getHeight
    Outcome.done { v with dragData := some {
      splItem := splItem
      splOffsetY := splOffsetY
      startY := mouseY - splOffsetY
      minY := 0
      maxY := v.viewHeight - splHeight } }

/-- The cascade in closed form: the panels met by the loop of `_resize`, in the
order met, with the heights the loop gives them when `r` is owed. -/
def cascade : List VPanel → ℚ → List VPanel
  | [], _ => []
  | p :: rest, r =>
    if p.isSplitter then p :: cascade rest r
    else p.setHeight (max 0 (p.getHeight - r)) ::
      (if r - p.getHeight < 0 then rest else cascade rest (r - p.getHeight))

/-- The number of panels marked `autoHeight`. -/
def autoCount (panels : List VPanel) : Nat := panels.countP fun p => p.autoHeight

/-- The height `refresh` gives to an `autoHeight` panel. -/
def fillHeight (v : VLayout) : ℚ :=
  (v.viewHeight - totalHeight (v.panels.filter fun p => !p.autoHeight)) / autoCount v.panels

/-- The sum of the heights of the panels of a list that are not splitters. -/
def contentHeight (panels : List VPanel) : ℚ :=
  totalHeight (panels.filter fun p => !p.isSplitter)

/-- The number of splitters in a list of panels. -/
def splitterCount (panels : List VPanel) : Nat := panels.countP fun p => p.isSplitter

/-- A panel with a fixed height, for examples (bounds 0 and 1000). -/
def fixedPanel (h : ℚ) : VPanel := ⟨h, false, false, 0, 1000⟩

/-- A splitter of height `h`, for examples. -/
def splitterPanel (h : ℚ) : VPanel := ⟨h, true, false, 0, 1000⟩

/-- A panel marked `autoHeight`, for examples. -/
def autoPanel (h : ℚ) : VPanel := ⟨h, false, true, 0, 1000⟩

/-- The panels met walking away from the item at position `i` on the side its
boundary moves toward: those after it when it is dragged down, those before it,
nearest first, otherwise. -/
def shrinkSide (panels : List VPanel) (i : Nat) (toDown : Bool) : List VPanel :=
  if toDown then panels.drop (i + 1) else (panels.take i).reverse

/-- The panels of a list that are not splitters, in the order of the list. -/
def contentPanels (panels : List VPanel) : List VPanel :=
  panels.filter fun p => !p.isSplitter

/-- What the cascade makes of the first panel it meets. -/
def cascadeFirst (o : VPanel) (r : ℚ) : VPanel :=
  if o.isSplitter then o else o.setHeight (max 0 (o.getHeight - r))

/-- A whole drag: the press `_onDragStart` on the handle of the item `splID`, then
the release `_onDragEnd`; the `_onDrag` events in between move the guide only. A
press that throws opens no session and changes nothing. -/
def dragAndRelease (v : VLayout) (splID : Nat) (splOffsetY pressY releaseY : ℚ) : VLayout :=
  match _onDragStart v splID splOffsetY pressY with
  | Outcome.thrown v' => v'
  | Outcome.done v' => (_onDragEnd v' releaseY).state

/-- The two operations that write panel heights. -/
inductive Op where
  | refresh
  | drag (splID : Nat) (splOffsetY pressY releaseY : ℚ)

/-- One operation on the layout. -/
def step (v : VLayout) : Op → VLayout
  | Op.refresh => refresh v
  | Op.drag splID splOffsetY pressY releaseY => dragAndRelease v splID splOffsetY pressY releaseY

/-- A sequence of operations on the layout. -/
def run (v : VLayout) (ops : List Op) : VLayout := ops.foldl step v

/-- The drags of which the sum of the heights is known to be kept: the heights are
all `≥ 0`, the dragged item is a splitter, every splitter of the stack is as high
as it, and the session's `startY` (press position less pointer offset) is the top
edge of the dragged splitter. A refresh is under no condition. -/
def Regular (v : VLayout) : Op → Prop
  | Op.refresh => True
  | Op.drag splID splOffsetY pressY _ =>
    (∀ p ∈ v.panels, 0 ≤ p.getHeight) ∧
    (∃ s, v.panels[splID]? = some s ∧ s.isSplitter = true ∧
      ∀ p ∈ v.panels, p.isSplitter = true → p.getHeight = s.getHeight) ∧
    pressY - splOffsetY = totalHeight (v.panels.take splID)

/-- Every operation of the sequence is regular in the layout it is applied to. -/
def RegularRun : VLayout → List Op → Prop
  | _, [] => True
  | v, op :: ops => Regular v op ∧ RegularRun (step v op) ops

/-- A panel of height `h` with the bounds `minHeight = lo` and `maxHeight = hi`,
for examples. -/
def boundedPanel (h lo hi : ℚ) : VPanel := ⟨h, false, false, lo, hi⟩

/-! ## Panels -/

@[simp] theorem getHeight_setHeight (p : VPanel) (h : ℚ) :
    (p.setHeight h).getHeight = h := rfl

@[simp] theorem isSplitter_setHeight (p : VPanel) (h : ℚ) :
    (p.setHeight h).isSplitter = p.isSplitter := rfl

@[simp] theorem autoHeight_setHeight (p : VPanel) (h : ℚ) :
    (p.setHeight h).autoHeight = p.autoHeight := rfl

@[simp] theorem setHeight_setHeight (p : VPanel) (h k : ℚ) :
    (p.setHeight h).setHeight k = p.setHeight k := rfl

@[simp] theorem setHeight_getHeight (p : VPanel) : p.setHeight p.getHeight = p := rfl

/-! ## The walk along the registry -/

theorem item_eq_enum (panels : List VPanel) (i : Nat) : item panels i = panels.enum[i]? := by
  rw [List.getElem?_enum]
  rfl

theorem fst_of_item (panels : List VPanel) (i : Nat) (x : Nat × VPanel)
    (h : item panels i = some x) : x.1 = i := by
  unfold item at h
  cases hp : panels[i]? with
  | none => simp [hp] at h
  | some p =>
    rw [hp] at h
    rw [← Option.some.inj h]

/-- The items of `traverse` downwards are those reached by calling `next` again and
again until it returns nothing. -/
theorem traverse_next_eq (panels : List VPanel) (cursor : Nat) :
    traverse panels true cursor =
      match next panels cursor with
      | none => []
      | some x => x :: traverse panels true x.1 := by
  unfold next
  cases hx : item panels (cursor + 1) with
  | none =>
    rw [item_eq_enum, List.getElem?_eq_none_iff] at hx
    simp only [traverse, if_true]
    exact List.drop_eq_nil_of_le hx
  | some x =>
    have hfst := fst_of_item panels _ x hx
    rw [item_eq_enum] at hx
    obtain ⟨hlt, hget⟩ := List.getElem?_eq_some_iff.mp hx
    simp only [traverse, if_true, hfst]
    rw [List.drop_eq_getElem_cons hlt, hget]

/-- The items of `traverse` upwards, from a cursor inside the registry, are those
reached by calling `prev` again and again until it returns nothing. -/
theorem traverse_prev_eq (panels : List VPanel) (cursor : Nat)
    (hc : cursor ≤ panels.length) :
    traverse panels false cursor =
      match prev panels cursor with
      | none => []
      | some x => x :: traverse panels false x.1 := by
  cases cursor with
  | zero => simp [traverse, prev]
  | succ k =>
    have hlt : k < panels.enum.length := by
      rw [List.enum_length]
      exact hc
    have hx : item panels k = some panels.enum[k] := by
      rw [item_eq_enum]
      exact List.getElem?_eq_getElem hlt
    have hfst := fst_of_item panels _ _ hx
    simp only [prev, Nat.add_one_ne_zero, if_false, Nat.add_sub_cancel, hx]
    simp only [traverse, Bool.false_eq_true, if_false, hfst]
    rw [List.take_succ, List.getElem?_eq_getElem hlt]
    simp

/-! ## The resize map and its commit -/

theorem resizeLoop_splitter (pid : Nat) (panel : VPanel) (rest : List (Nat × VPanel))
    (r : ℚ) (m : List (Nat × ℚ)) (hs : panel.isSplitter = true) :
    resizeLoop ((pid, panel) :: rest) r m = resizeLoop rest r m := by
  simp [resizeLoop, hs]

theorem resizeLoop_break (pid : Nat) (panel : VPanel) (rest : List (Nat × VPanel))
    (r : ℚ) (m : List (Nat × ℚ)) (hs : panel.isSplitter = false)
    (hb : r - panel.getHeight < 0) :
    resizeLoop ((pid, panel) :: rest) r m = (pid, max 0 (panel.getHeight - r)) :: m := by
  simp [resizeLoop, hs, hb]

theorem resizeLoop_continue (pid : Nat) (panel : VPanel) (rest : List (Nat × VPanel))
    (r : ℚ) (m : List (Nat × ℚ)) (hs : panel.isSplitter = false)
    (hb : ¬ r - panel.getHeight < 0) :
    resizeLoop ((pid, panel) :: rest) r m =
      resizeLoop rest (r - panel.getHeight) ((pid, max 0 (panel.getHeight - r)) :: m) := by
  simp only [resizeLoop, hs, hb]
  simp

theorem cascade_splitter (p : VPanel) (rest : List VPanel) (r : ℚ)
    (hs : p.isSplitter = true) : cascade (p :: rest) r = p :: cascade rest r := by
  simp [cascade, hs]

theorem cascade_break (p : VPanel) (rest : List VPanel) (r : ℚ)
    (hs : p.isSplitter = false) (hb : r - p.getHeight < 0) :
    cascade (p :: rest) r = p.setHeight (max 0 (p.getHeight - r)) :: rest := by
  simp [cascade, hs, hb]

theorem cascade_continue (p : VPanel) (rest : List VPanel) (r : ℚ)
    (hs : p.isSplitter = false) (hb : ¬ r - p.getHeight < 0) :
    cascade (p :: rest) r =
      p.setHeight (max 0 (p.getHeight - r)) :: cascade rest (r - p.getHeight) := by
  simp only [cascade, hs, hb]
  simp

theorem lookup_cons_ne (m : List (Nat × ℚ)) (pid j : Nat) (v : ℚ) (h : pid ≠ j) :
    ((pid, v) :: m).lookup j = m.lookup j := by
  have hbeq : (j == pid) = false := by simpa using fun e => h e.symm
  simp [List.lookup_cons, hbeq]

theorem lookup_resizeLoop_of_not_mem (items : List (Nat × VPanel)) (r : ℚ)
    (m : List (Nat × ℚ)) (j : Nat) (hj : ∀ x ∈ items, x.1 ≠ j) :
    (resizeLoop items r m).lookup j = m.lookup j := by
  induction items generalizing r m with
  | nil => rfl
  | cons x rest ih =>
    obtain ⟨pid, panel⟩ := x
    have hne : pid ≠ j := hj (pid, panel) (List.mem_cons_self _ _)
    have hrest : ∀ x ∈ rest, x.1 ≠ j := fun x hx => hj x (List.mem_cons_of_mem _ hx)
    cases hs : panel.isSplitter with
    | true =>
      rw [resizeLoop_splitter _ _ _ _ _ hs]
      exact ih r m hrest
    | false =>
      by_cases hb : r - panel.getHeight < 0
      · rw [resizeLoop_break _ _ _ _ _ hs hb, lookup_cons_ne _ _ _ _ hne]
      · rw [resizeLoop_continue _ _ _ _ _ hs hb, ih _ _ hrest, lookup_cons_ne _ _ _ _ hne]

theorem map_commitItem_of_lookup_none (items : List (Nat × VPanel)) (m : List (Nat × ℚ))
    (h : ∀ x ∈ items, m.lookup x.1 = none) :
    items.map (commitItem m) = items.map Prod.snd := by
  apply List.map_congr_left
  intro x hx
  simp [commitItem, h x hx]

theorem map_commitItem_resizeLoop (items : List (Nat × VPanel)) (r : ℚ)
    (m : List (Nat × ℚ)) (hnd : (items.map Prod.fst).Nodup)
    (hm : ∀ x ∈ items, m.lookup x.1 = none) :
    items.map (commitItem (resizeLoop items r m)) = cascade (items.map Prod.snd) r := by
  induction items generalizing r m with
  | nil => rfl
  | cons x rest ih =>
    obtain ⟨pid, panel⟩ := x
    have hnd' : (rest.map Prod.fst).Nodup := (List.nodup_cons.mp hnd).2
    have hnotin : ∀ x ∈ rest, x.1 ≠ pid := by
      intro x hx hxe
      exact (List.nodup_cons.mp hnd).1 (List.mem_map.mpr ⟨x, hx, hxe⟩)
    have hmrest : ∀ x ∈ rest, m.lookup x.1 = none :=
      fun x hx => hm x (List.mem_cons_of_mem _ hx)
    have hmhead : m.lookup pid = none := hm (pid, panel) (List.mem_cons_self _ _)
    have hm' : ∀ v : ℚ, ∀ x ∈ rest, ((pid, v) :: m).lookup x.1 = none := by
      intro v x hx
      rw [lookup_cons_ne _ _ _ _ (hnotin x hx).symm]
      exact hmrest x hx
    simp only [List.map_cons]
    cases hs : panel.isSplitter with
    | true =>
      rw [resizeLoop_splitter _ _ _ _ _ hs, cascade_splitter _ _ _ hs, ih r m hnd' hmrest]
      congr 1
      simp [commitItem, lookup_resizeLoop_of_not_mem rest r m pid hnotin, hmhead]
    | false =>
      by_cases hb : r - panel.getHeight < 0
      · rw [resizeLoop_break _ _ _ _ _ hs hb, cascade_break _ _ _ hs hb,
          map_commitItem_of_lookup_none rest _ (hm' _)]
        simp [commitItem]
      · rw [resizeLoop_continue _ _ _ _ _ hs hb, cascade_continue _ _ _ hs hb,
          ih _ _ hnd' (hm' _)]
        congr 1
        simp [commitItem, lookup_resizeLoop_of_not_mem rest _ _ pid hnotin]

theorem nodup_fst_enumFrom (n : Nat) (l : List VPanel) :
    ((l.enumFrom n).map Prod.fst).Nodup := by
  rw [List.enumFrom_map_fst]
  exact List.nodup_range' n l.length

theorem item_append_length (pre post : List VPanel) (g : VPanel) :
    item (pre ++ g :: post) pre.length = some (pre.length, g) := by
  have h : (pre ++ g :: post)[pre.length]? = some g := by
    rw [List.getElem?_append_right (le_refl _)]
    simp
  simp [item, h]

theorem enum_split (pre post : List VPanel) (g : VPanel) :
    (pre ++ g :: post).enum =
      pre.enum ++ (pre.length, g) :: post.enumFrom (pre.length + 1) := by
  rw [List.enum_append]
  rfl

theorem traverse_down (pre post : List VPanel) (g : VPanel) :
    traverse (pre ++ g :: post) true pre.length = post.enumFrom (pre.length + 1) := by
  have hlen : pre.enum.length = pre.length := List.enum_length
  simp only [traverse, if_true, enum_split]
  have hsplit : pre.enum ++ (pre.length, g) :: post.enumFrom (pre.length + 1) =
      (pre.enum ++ [(pre.length, g)]) ++ post.enumFrom (pre.length + 1) := by simp
  rw [hsplit]
  apply List.drop_left'
  simp

theorem traverse_up (pre post : List VPanel) (g : VPanel) :
    traverse (pre ++ g :: post) false pre.length = pre.enum.reverse := by
  have hlen : pre.enum.length = pre.length := List.enum_length
  simp only [traverse, enum_split, Bool.false_eq_true, if_false]
  rw [List.take_left' hlen]

/-- The closed form of `_resize` dragging down: the panel before the dragged item
grows, the items from the dragged one on go through the cascade. -/
theorem _resize_down (pre post : List VPanel) (g : VPanel) (i : Nat) (startY mouseY : ℚ)
    (hi : i = pre.length + 1) (h : mouseY > startY) :
    _resize (pre ++ g :: post) i startY mouseY =
      some (pre ++ g.setHeight (g.getHeight + |startY - mouseY|) ::
        cascade post |startY - mouseY|) := by
  subst hi
  have hprev : prev (pre ++ g :: post) (pre.length + 1) = some (pre.length, g) := by
    simp [prev, item_append_length]
  simp only [_resize, resizeMap, h, decide_True, if_true, hprev, Option.map_some',
    traverse_down, commit, enum_split, List.map_append, List.map_cons]
  congr 1
  have hkeys : ∀ x ∈ post.enumFrom (pre.length + 1), x.1 ≠ pre.length := by
    intro x hx
    have := List.le_fst_of_mem_enumFrom hx
    omega
  congr 1
  · rw [map_commitItem_of_lookup_none, List.enum_map_snd]
    intro x hx
    have hlt : x.1 < pre.length := by
      have := List.fst_lt_add_of_mem_enumFrom hx
      simpa using this
    rw [lookup_resizeLoop_of_not_mem, lookup_cons_ne _ _ _ _ (by omega)]
    · rfl
    · intro y hy
      have := List.le_fst_of_mem_enumFrom hy
      omega
  · congr 1
    · simp [commitItem, lookup_resizeLoop_of_not_mem _ _ _ _ hkeys]
    · rw [map_commitItem_resizeLoop _ _ _ (nodup_fst_enumFrom _ _), List.enumFrom_map_snd]
      intro x hx
      rw [lookup_cons_ne _ _ _ _ (hkeys x hx).symm]
      rfl

/-- The closed form of `_resize` dragging up (or not at all): the panel after the
dragged item grows, the items from the dragged one back to the head go through the
cascade. -/
theorem _resize_up (pre post : List VPanel) (g : VPanel) (i : Nat) (startY mouseY : ℚ)
    (hi : i + 1 = pre.length) (h : ¬ mouseY > startY) :
    _resize (pre ++ g :: post) i startY mouseY =
      some ((cascade pre.reverse |startY - mouseY|).reverse ++
        g.setHeight (g.getHeight + |startY - mouseY|) :: post) := by
  have hnext : next (pre ++ g :: post) i = some (pre.length, g) := by
    simp [next, hi, item_append_length]
  simp only [_resize, resizeMap, h, decide_False, Bool.false_eq_true, if_false, hnext,
    Option.map_some', traverse_up, commit, enum_split, List.map_append, List.map_cons]
  congr 1
  have hkeys : ∀ x ∈ pre.enum.reverse, x.1 ≠ pre.length := by
    intro x hx
    have := List.fst_lt_add_of_mem_enumFrom (List.mem_reverse.mp hx)
    omega
  have hnd : (pre.enum.reverse.map Prod.fst).Nodup := by
    rw [List.map_reverse, List.nodup_reverse]
    exact nodup_fst_enumFrom 0 pre
  congr 1
  · rw [← List.reverse_reverse (List.map _ pre.enum), ← List.map_reverse,
      map_commitItem_resizeLoop _ _ _ hnd, List.map_reverse, List.enum_map_snd]
    intro x hx
    rw [lookup_cons_ne _ _ _ _ (hkeys x hx).symm]
    rfl
  · congr 1
    · simp [commitItem, lookup_resizeLoop_of_not_mem _ _ _ _ hkeys]
    · rw [map_commitItem_of_lookup_none, List.enumFrom_map_snd]
      intro x hx
      have hlt : pre.length + 1 ≤ x.1 := List.le_fst_of_mem_enumFrom hx
      rw [lookup_resizeLoop_of_not_mem, lookup_cons_ne _ _ _ _ (by omega)]
      · rfl
      · intro y hy
        have := hkeys y hy
        have := List.fst_lt_add_of_mem_enumFrom (List.mem_reverse.mp hy)
        omega

/-! ## `refresh` in closed form -/

theorem refreshEach_eq (items : List (Nat × VPanel)) (acc : List Nat × ℚ) :
    refreshEach items acc =
      (acc.1 ++ (items.filter fun x => x.2.autoHeight).map Prod.fst,
        acc.2 + ((items.filter fun x => !x.2.autoHeight).map fun x => x.2.getHeight).sum) := by
  induction items generalizing acc with
  | nil => simp [refreshEach]
  | cons x rest ih =>
    obtain ⟨pid, panel⟩ := x
    obtain ⟨fill, used⟩ := acc
    cases ha : panel.autoHeight with
    | true => simp [refreshEach, ha, ih]
    | false => simp [refreshEach, ha, ih, add_assoc]

theorem lookup_map_const (fill : List Nat) (r : ℚ) (j : Nat) :
    (fill.map fun pid => (pid, r)).lookup j = if j ∈ fill then some r else none := by
  induction fill with
  | nil => simp
  | cons a rest ih =>
    by_cases h : j = a
    · subst h
      simp
    · have hbeq : (j == a) = false := by simpa using h
      simp [List.lookup_cons, hbeq, ih, h]

theorem filter_enum_snd (panels : List VPanel) (f : VPanel → Bool) :
    ((panels.enum.filter fun x => f x.2).map Prod.snd) = panels.filter f := by
  have h := List.filter_map (f := Prod.snd) (l := panels.enum) (p := f)
  rw [List.enum_map_snd] at h
  rw [h]
  rfl

theorem refresh_panels (v : VLayout) :
    (refresh v).panels =
      v.panels.map fun p => if p.autoHeight then p.setHeight (fillHeight v) else p := by
  have hused : (refreshEach v.panels.enum ([], 0)).2 =
      totalHeight (v.panels.filter fun p => !p.autoHeight) := by
    rw [refreshEach_eq, ← filter_enum_snd]
    simp [totalHeight, List.map_map, Function.comp_def]
  have hlen : (refreshEach v.panels.enum ([], 0)).1.length = autoCount v.panels := by
    rw [refreshEach_eq]
    simp only [List.nil_append, List.length_map]
    rw [← List.length_map (f := Prod.snd), filter_enum_snd, autoCount, List.countP_eq_length_filter]
  have hfill : ∀ x ∈ v.panels.enum,
      (x.1 ∈ (refreshEach v.panels.enum ([], 0)).1 ↔ x.2.autoHeight = true) := by
    intro x hx
    rw [refreshEach_eq]
    simp only [List.nil_append, List.mem_map, List.mem_filter]
    constructor
    · rintro ⟨y, ⟨hy, hya⟩, hyx⟩
      have h1 := List.mem_enum_iff_getElem?.mp hy
      have h2 := List.mem_enum_iff_getElem?.mp hx
      rw [hyx, h2] at h1
      rw [Option.some.inj h1]
      exact hya
    · intro ha
      exact ⟨x, ⟨hx, ha⟩, rfl⟩
  simp only [refresh, commit, hused, hlen]
  rw [← List.enum_map_snd v.panels, List.map_map]
  simp only [List.enum_map_snd]
  apply List.map_congr_left
  intro x hx
  simp only [commitItem, lookup_map_const, Function.comp_apply, fillHeight]
  by_cases ha : x.2.autoHeight = true
  · simp [(hfill x hx).mpr ha, ha]
  · simp [mt (hfill x hx).mp ha, ha]

/-! ## `_resize` without a neighbour to grow -/

theorem _resize_head (panels : List VPanel) (startY mouseY : ℚ) (h : mouseY > startY) :
    _resize panels 0 startY mouseY = none := by
  simp [_resize, resizeMap, h, prev]

theorem _resize_tail (panels : List VPanel) (i : Nat) (startY mouseY : ℚ)
    (hi : panels.length ≤ i + 1) (h : ¬ mouseY > startY) :
    _resize panels i startY mouseY = none := by
  have hnext : next panels i = none := by
    simp [next, item, List.getElem?_eq_none hi]
  simp [_resize, resizeMap, h, hnext]

/-! ## Fill distribution -/

theorem filter_not_auto_fill (l : List VPanel) (r : ℚ) :
    (l.map fun p => if p.autoHeight then p.setHeight r else p).filter
      (fun p => !p.autoHeight) = l.filter fun p => !p.autoHeight := by
  induction l with
  | nil => rfl
  | cons p rest ih =>
    cases ha : p.autoHeight with
    | true => simp [ha, List.filter_cons, ih]
    | false => simp [ha, List.filter_cons, ih]

theorem autoCount_fill (l : List VPanel) (r : ℚ) :
    autoCount (l.map fun p => if p.autoHeight then p.setHeight r else p) = autoCount l := by
  induction l with
  | nil => rfl
  | cons p rest ih =>
    unfold autoCount at ih ⊢
    cases ha : p.autoHeight with
    | true => simp only [List.map_cons, List.countP_cons, ih, ha, if_true,
        autoHeight_setHeight]
    | false => simp only [List.map_cons, List.countP_cons, ih, ha, Bool.false_eq_true,
        if_false]

theorem fillHeight_refresh (v : VLayout) : fillHeight (refresh v) = fillHeight v := by
  have hv : (refresh v).viewHeight = v.viewHeight := rfl
  unfold fillHeight
  rw [hv, refresh_panels, filter_not_auto_fill, autoCount_fill]

theorem autoCount_pos (panels : List VPanel) (h : ∃ p ∈ panels, p.autoHeight = true) :
    0 < autoCount panels := by
  obtain ⟨p, hp, ha⟩ := h
  exact List.countP_pos_iff.mpr ⟨p, hp, ha⟩

theorem totalHeight_fill (l : List VPanel) (r : ℚ) :
    totalHeight (l.map fun p => if p.autoHeight then p.setHeight r else p) =
      totalHeight (l.filter fun p => !p.autoHeight) + autoCount l * r := by
  induction l with
  | nil => simp [totalHeight, autoCount]
  | cons p rest ih =>
    unfold totalHeight autoCount at ih ⊢
    cases ha : p.autoHeight with
    | true =>
      simp only [List.map_cons, ha, if_true, List.sum_cons, ih, List.filter_cons,
        Bool.not_true, List.countP_cons]
      simp
      ring
    | false =>
      simp only [List.map_cons, ha, List.sum_cons, ih, List.filter_cons,
        Bool.not_false, List.countP_cons]
      simp
      ring

/-! ## The cascade -/

theorem split_at (panels : List VPanel) (i : Nat) (s : VPanel) (h : panels[i]? = some s) :
    panels = panels.take i ++ s :: panels.drop (i + 1) ∧ (panels.take i).length = i := by
  have hlt : i < panels.length := (List.getElem?_eq_some.mp h).1
  have hget : panels[i] = s := (List.getElem?_eq_some.mp h).2
  refine ⟨?_, by simp [List.length_take, Nat.le_of_lt hlt]⟩
  rw [← hget, List.getElem_cons_drop _ _ hlt, List.take_append_drop]

theorem totalHeight_append (l₁ l₂ : List VPanel) :
    totalHeight (l₁ ++ l₂) = totalHeight l₁ + totalHeight l₂ := by
  simp [totalHeight]

theorem totalHeight_cons (p : VPanel) (l : List VPanel) :
    totalHeight (p :: l) = p.getHeight + totalHeight l := by
  simp [totalHeight]

theorem totalHeight_reverse (l : List VPanel) : totalHeight l.reverse = totalHeight l := by
  simp [totalHeight, List.sum_reverse]

theorem contentHeight_cons_splitter (p : VPanel) (l : List VPanel)
    (hs : p.isSplitter = true) : contentHeight (p :: l) = contentHeight l := by
  simp [contentHeight, hs]

theorem contentHeight_cons_content (p : VPanel) (l : List VPanel)
    (hs : p.isSplitter = false) : contentHeight (p :: l) = p.getHeight + contentHeight l := by
  simp [contentHeight, hs, totalHeight_cons]

theorem contentHeight_reverse (l : List VPanel) : contentHeight l.reverse = contentHeight l := by
  simp [contentHeight, List.filter_reverse, totalHeight_reverse]

theorem contentHeight_nonneg (l : List VPanel) (hnn : ∀ p ∈ l, 0 ≤ p.getHeight) :
    0 ≤ contentHeight l := by
  induction l with
  | nil => simp [contentHeight, totalHeight]
  | cons p rest ih =>
    have hrest := ih fun q hq => hnn q (List.mem_cons_of_mem _ hq)
    have hp := hnn p (List.mem_cons_self _ _)
    cases hs : p.isSplitter with
    | true => rw [contentHeight_cons_splitter _ _ hs]; exact hrest
    | false => rw [contentHeight_cons_content _ _ hs]; exact add_nonneg hp hrest

/-- With every splitter as high as `u`, a list weighs its content plus `u` for each
of its splitters. -/
theorem totalHeight_eq_content_add (l : List VPanel) (u : ℚ)
    (hu : ∀ p ∈ l, p.isSplitter = true → p.getHeight = u) :
    totalHeight l = contentHeight l + u * splitterCount l := by
  induction l with
  | nil => simp [contentHeight, totalHeight, splitterCount]
  | cons p rest ih =>
    have hrest := ih fun q hq => hu q (List.mem_cons_of_mem _ hq)
    cases hs : p.isSplitter with
    | true =>
      have hp := hu p (List.mem_cons_self _ _) hs
      rw [contentHeight_cons_splitter _ _ hs, totalHeight_cons, hrest, hp]
      simp [splitterCount, List.countP_cons, hs]
      ring
    | false =>
      rw [contentHeight_cons_content _ _ hs, totalHeight_cons, hrest]
      simp [splitterCount, List.countP_cons, hs]
      ring

/-- A displacement that the content on the shrink side can supply is absorbed
whole by the cascade. -/
theorem totalHeight_cascade (l : List VPanel) (r : ℚ) (h0 : 0 ≤ r)
    (hr : r ≤ contentHeight l) : totalHeight (cascade l r) = totalHeight l - r := by
  induction l generalizing r with
  | nil =>
    have : r = 0 := le_antisymm (by simpa [contentHeight, totalHeight] using hr) h0
    simp [cascade, this]
  | cons p rest ih =>
    cases hs : p.isSplitter with
    | true =>
      rw [contentHeight_cons_splitter _ _ hs] at hr
      rw [cascade_splitter _ _ _ hs, totalHeight_cons, totalHeight_cons, ih r h0 hr]
      ring
    | false =>
      rw [contentHeight_cons_content _ _ hs] at hr
      by_cases hb : r - p.getHeight < 0
      · rw [cascade_break _ _ _ hs hb, totalHeight_cons, totalHeight_cons,
          getHeight_setHeight, max_eq_right (by linarith)]
        ring
      · have hb' : 0 ≤ r - p.getHeight := not_lt.mp hb
        rw [cascade_continue _ _ _ hs hb, totalHeight_cons, totalHeight_cons,
          getHeight_setHeight, max_eq_left (by linarith), ih _ hb' (by linarith)]
        ring

theorem cascade_nonneg (l : List VPanel) (r : ℚ) (hnn : ∀ p ∈ l, 0 ≤ p.getHeight) :
    ∀ p ∈ cascade l r, 0 ≤ p.getHeight := by
  induction l generalizing r with
  | nil => simp [cascade]
  | cons q rest ih =>
    have hrest : ∀ p ∈ rest, 0 ≤ p.getHeight := fun p hp => hnn p (List.mem_cons_of_mem _ hp)
    have hq := hnn q (List.mem_cons_self _ _)
    intro p hp
    cases hs : q.isSplitter with
    | true =>
      rw [cascade_splitter _ _ _ hs] at hp
      rcases List.mem_cons.mp hp with h | h
      · rw [h]; exact hq
      · exact ih r hrest p h
    | false =>
      by_cases hb : r - q.getHeight < 0
      · rw [cascade_break _ _ _ hs hb] at hp
        rcases List.mem_cons.mp hp with h | h
        · rw [h]; simp
        · exact hrest p h
      · rw [cascade_continue _ _ _ hs hb] at hp
        rcases List.mem_cons.mp hp with h | h
        · rw [h]; simp
        · exact ih _ hrest p h

/-! ## The splitters aside of the dragged one -/

theorem foldl_unitHeight (items : List (Nat × VPanel)) (u a : ℚ) :
    items.foldl (fun acc x => if x.2.isSplitter then acc + u else acc) a =
      a + u * (items.countP fun x => x.2.isSplitter) := by
  induction items generalizing a with
  | nil => simp
  | cons x rest ih =>
    cases hs : x.2.isSplitter with
    | true =>
      simp only [List.foldl_cons, hs, if_true, ih, List.countP_cons]
      push_cast
      ring
    | false => simp [List.foldl_cons, hs, ih, List.countP_cons]

theorem countP_enumFrom (l : List VPanel) (n : Nat) :
    ((l.enumFrom n).countP fun x => x.2.isSplitter) = splitterCount l := by
  have h := List.countP_map (p := fun p : VPanel => p.isSplitter) (f := Prod.snd)
    (l := l.enumFrom n)
  rw [List.enumFrom_map_snd] at h
  rw [splitterCount, h]
  rfl

theorem aside_eq (pre post : List VPanel) (s : VPanel) :
    _getAsideSplitterHeightSummation (pre ++ s :: post) pre.length =
      some (s.getHeight * splitterCount pre, s.getHeight * splitterCount post) := by
  simp only [_getAsideSplitterHeightSummation, item_append_length, traverse_up,
    traverse_down, foldl_unitHeight, List.countP_reverse, zero_add]
  rw [countP_enumFrom, List.enum, countP_enumFrom]

theorem aside_at (panels : List VPanel) (i : Nat) (s : VPanel) (hs : panels[i]? = some s) :
    _getAsideSplitterHeightSummation panels i =
      some (s.getHeight * splitterCount (panels.take i),
        s.getHeight * splitterCount (panels.drop (i + 1))) := by
  obtain ⟨hsplit, hlen⟩ := split_at panels i s hs
  have h := aside_eq (panels.take i) (panels.drop (i + 1)) s
  rw [← hsplit, hlen] at h
  exact h

theorem totalHeight_splitters (l : List VPanel) (u : ℚ)
    (hu : ∀ p ∈ l, p.isSplitter = true → p.getHeight = u) :
    totalHeight (l.filter fun p => p.isSplitter) = u * splitterCount l := by
  induction l with
  | nil => simp [totalHeight, splitterCount]
  | cons p rest ih =>
    have hrest := ih fun q hq => hu q (List.mem_cons_of_mem _ hq)
    cases hs : p.isSplitter with
    | true =>
      have hp := hu p (List.mem_cons_self _ _) hs
      simp only [List.filter_cons, hs, if_true, totalHeight_cons, hrest, hp, splitterCount,
        List.countP_cons]
      push_cast
      ring
    | false =>
      simp only [List.filter_cons, hs, Bool.false_eq_true, if_false, hrest, splitterCount,
        List.countP_cons]
      simp

theorem limit_le (value lo hi : ℚ) : limit value lo hi ≤ hi := min_le_right _ _

theorem le_limit (value lo hi : ℚ) (h : lo ≤ hi) : lo ≤ limit value lo hi :=
  le_min (le_max_right _ _) h

theorem limit_eq_hi (value lo hi : ℚ) (h : hi < lo) : limit value lo hi = hi :=
  min_eq_right (le_trans (le_of_lt h) (le_max_right _ _))

theorem refresh_eq (v : VLayout) :
    refresh v =
      ⟨v.panels.map fun p => if p.autoHeight then p.setHeight (fillHeight v) else p,
        v.viewHeight, v.dragData⟩ := by
  have h : refresh v = ⟨(refresh v).panels, v.viewHeight, v.dragData⟩ := rfl
  rw [h, refresh_panels]

/-! ## The claims on `refresh` -/

/-- C4 (fill correctness). On a stack with at least one `autoHeight` panel and for
every container height, `refresh` gives every `autoHeight` panel the height
(container height - sum of the heights of the panels not marked `autoHeight`,
splitters included) / (number of `autoHeight` panels), a division by a positive
number, and leaves every other panel as it was. -/
theorem refresh_fill_correct (v : VLayout) (hauto : ∃ p ∈ v.panels, p.autoHeight = true) :
    0 < v.panels.countP (fun p => p.autoHeight) ∧
    (refresh v).panels = v.panels.map fun p =>
      if p.autoHeight then
        p.setHeight ((v.viewHeight - totalHeight (v.panels.filter fun q => !q.autoHeight)) /
          (v.panels.countP fun q => q.autoHeight))
      else p :=
  ⟨autoCount_pos v.panels hauto, refresh_panels v⟩

/-- C4, the example of the claim: a fixed panel of height 100 and two `autoHeight`
panels in a container of height 300; both `autoHeight` panels get height 100. -/
theorem refresh_fill_correct_witness :
    (∃ p ∈ [fixedPanel 100, autoPanel 0, autoPanel 7], p.autoHeight = true) ∧
    (refresh ⟨[fixedPanel 100, autoPanel 0, autoPanel 7], 300, none⟩).panels =
      [fixedPanel 100, autoPanel 100, autoPanel 100] := by
  have hauto : ∃ p ∈ [fixedPanel 100, autoPanel 0, autoPanel 7], p.autoHeight = true :=
    ⟨autoPanel 0, by simp, rfl⟩
  refine ⟨hauto, ?_⟩
  rw [(refresh_fill_correct ⟨[fixedPanel 100, autoPanel 0, autoPanel 7], 300, none⟩ hauto).2]
  norm_num [fixedPanel, autoPanel, totalHeight, VPanel.setHeight, VPanel.getHeight]

/-- C5 (idempotence of refresh). For every stack and container height, `refresh`
applied twice leaves the same layout, so the same panel heights, as `refresh`
applied once. -/
theorem refresh_idempotent (v : VLayout) : refresh (refresh v) = refresh v := by
  rw [refresh_eq (refresh v), fillHeight_refresh, refresh_eq v]
  simp only [List.map_map]
  congr 1
  apply List.map_congr_left
  intro p _
  cases ha : p.autoHeight <;> simp [ha]

/-! ## The claims on the clamp of `_onDragEnd` -/

/-- C8, the code at the failing input: `[splitter(3), panel(20), splitter(5)]` with
the lower splitter dragged. The loop adds `unitHeight`, the dragged splitter's own
height 5, for the splitter it meets above, and returns `[5, 0]`; the sum of the
heights of the splitters strictly above is 3. -/
theorem aside_summation_not_sum :
    _getAsideSplitterHeightSummation [splitterPanel 3, fixedPanel 20, splitterPanel 5] 2 =
      some (5, 0) ∧
    _getAsideSplitterHeightSummation [splitterPanel 3, fixedPanel 20, splitterPanel 5] 2 ≠
      some (totalHeight (([splitterPanel 3, fixedPanel 20, splitterPanel 5].take 2).filter
          fun p => p.isSplitter),
        totalHeight (([splitterPanel 3, fixedPanel 20, splitterPanel 5].drop 3).filter
          fun p => p.isSplitter)) := by
  have h := aside_eq [splitterPanel 3, fixedPanel 20] [] (splitterPanel 5)
  simp only [List.length_cons, List.length_nil, List.cons_append, List.nil_append] at h
  rw [h]
  norm_num [totalHeight, splitterCount, splitterPanel, fixedPanel, VPanel.isSplitter,
    VPanel.getHeight]

theorem finalMouseY_eq (panels : List VPanel) (d : DragData) (y upper below : ℚ)
    (ha : _getAsideSplitterHeightSummation panels d.splItem = some (upper, below)) :
    finalMouseY panels d y =
      some (limit (_getMouseY d y) (d.minY + upper) (d.maxY - below)) := by
  simp [finalMouseY, ha]

theorem _onDragEnd_eq (v : VLayout) (d : DragData) (y m : ℚ) (hd : v.dragData = some d)
    (hm : finalMouseY v.panels d y = some m) :
    _onDragEnd v y =
      match _resize v.panels d.splItem d.startY m with
      | none => Outcome.thrown v
      | some panels => Outcome.done { v with panels := panels, dragData := none } := by
  simp [_onDragEnd, hd, hm]

/-- C9, the code at the failing input: `[splitter(20), A(30), splitter(10), B(40)]`
in a container of height 100, the lower splitter pressed at its top edge 50 and
released at the top. `_onDragStart` opens the session with `minY = 0` and
`maxY = 90`; the splitter above is 20 high, so the position handed to `_resize`
should lie in `[0 + 20, 90 - 0]`. `_onDragEnd` counts that splitter at the dragged
splitter's own height 10 and hands on `mouseY = 10`. -/
theorem clamp_enters_upper_splitter :
    _onDragStart
        ⟨[splitterPanel 20, fixedPanel 30, splitterPanel 10, fixedPanel 40], 100, none⟩ 2 0 50 =
      Outcome.done ⟨[splitterPanel 20, fixedPanel 30, splitterPanel 10, fixedPanel 40], 100,
        some ⟨2, 0, 50, 0, 90⟩⟩ ∧
    totalHeight (([splitterPanel 20, fixedPanel 30, splitterPanel 10, fixedPanel 40].take 2).filter
      fun p => p.isSplitter) = 20 ∧
    totalHeight (([splitterPanel 20, fixedPanel 30, splitterPanel 10, fixedPanel 40].drop 3).filter
      fun p => p.isSplitter) = 0 ∧
    _getAsideSplitterHeightSummation
        [splitterPanel 20, fixedPanel 30, splitterPanel 10, fixedPanel 40] 2 = some (10, 0) ∧
    finalMouseY [splitterPanel 20, fixedPanel 30, splitterPanel 10, fixedPanel 40]
        ⟨2, 0, 50, 0, 90⟩ 0 = some 10 ∧
    ¬ ((0 : ℚ) + 20 ≤ 10 ∧ (10 : ℚ) ≤ 90 - 0) := by
  have ha : _getAsideSplitterHeightSummation
      [splitterPanel 20, fixedPanel 30, splitterPanel 10, fixedPanel 40] 2 = some (10, 0) := by
    have h := aside_eq [splitterPanel 20, fixedPanel 30] [fixedPanel 40] (splitterPanel 10)
    simp only [List.length_cons, List.length_nil, List.cons_append, List.nil_append] at h
    rw [h]
    norm_num [splitterCount, splitterPanel, fixedPanel, VPanel.isSplitter, VPanel.getHeight]
  refine ⟨?_, ?_, ?_, ha, ?_, by norm_num⟩
  · norm_num [_onDragStart, item, splitterPanel, VPanel.getHeight]
  · norm_num [totalHeight, splitterPanel, fixedPanel, VPanel.isSplitter, VPanel.getHeight]
  · norm_num [totalHeight, splitterPanel, fixedPanel, VPanel.isSplitter, VPanel.getHeight]
  · rw [finalMouseY_eq _ _ _ _ _ ha]
    norm_num [limit, _getMouseY]

/-- In a collapsed container (height 0) the splitter of height 10 of
`[A(0), splitter(10), B(0)]` gets `minY = 0` and `maxY = -10` from `_onDragStart`:
the interval `[0, -10]` of the clamp is empty, and the position handed to
`_resize` is its upper end `-10`. -/
theorem clamp_on_empty_range :
    _onDragStart ⟨[fixedPanel 0, splitterPanel 10, fixedPanel 0], 0, none⟩ 1 0 0 =
      Outcome.done ⟨[fixedPanel 0, splitterPanel 10, fixedPanel 0], 0,
        some ⟨1, 0, 0, 0, -10⟩⟩ ∧
    _getAsideSplitterHeightSummation [fixedPanel 0, splitterPanel 10, fixedPanel 0] 1 =
      some (0, 0) ∧
    finalMouseY [fixedPanel 0, splitterPanel 10, fixedPanel 0] ⟨1, 0, 0, 0, -10⟩ 0 =
      some (-10) := by
  have ha : _getAsideSplitterHeightSummation
      [fixedPanel 0, splitterPanel 10, fixedPanel 0] 1 = some (0, 0) := by
    have h := aside_eq [fixedPanel 0] [fixedPanel 0] (splitterPanel 10)
    simp only [List.length_cons, List.length_nil, List.cons_append, List.nil_append] at h
    rw [h]
    norm_num [splitterCount, fixedPanel, VPanel.isSplitter]
  refine ⟨?_, ha, ?_⟩
  · norm_num [_onDragStart, item, splitterPanel, VPanel.getHeight]
  · rw [finalMouseY_eq _ _ _ _ _ ha]
    norm_num [limit, _getMouseY]

/-! ## The end of a drag session -/

/-- C10, the code at the failing input: a splitter at the tail of the stack, pressed
at its top edge 50 and released higher. `_onDragStart` opens the session,
`_onDragEnd` is cut short by the `TypeError` of `_resize` and leaves the layout
with the session still in `_dragData`. -/
theorem onDragEnd_tail_splitter_keeps_session :
    _onDragStart ⟨[fixedPanel 50, splitterPanel 10], 60, none⟩ 1 5 55 =
      Outcome.done ⟨[fixedPanel 50, splitterPanel 10], 60, some ⟨1, 5, 50, 0, 50⟩⟩ ∧
    _onDragEnd ⟨[fixedPanel 50, splitterPanel 10], 60, some ⟨1, 5, 50, 0, 50⟩⟩ 25 =
      Outcome.thrown ⟨[fixedPanel 50, splitterPanel 10], 60, some ⟨1, 5, 50, 0, 50⟩⟩ ∧
    (_onDragEnd ⟨[fixedPanel 50, splitterPanel 10], 60, some ⟨1, 5, 50, 0, 50⟩⟩ 25).state.dragData
      ≠ none := by
  have ha := aside_eq [fixedPanel 50] [] (splitterPanel 10)
  simp only [List.length_cons, List.length_nil, List.cons_append, List.nil_append] at ha
  have hm : finalMouseY [fixedPanel 50, splitterPanel 10] ⟨1, 5, 50, 0, 50⟩ 25 = some 20 := by
    rw [finalMouseY_eq _ _ _ _ _ ha]
    norm_num [limit, _getMouseY, splitterCount, fixedPanel, splitterPanel, VPanel.isSplitter,
      VPanel.getHeight]
  have hend : _onDragEnd ⟨[fixedPanel 50, splitterPanel 10], 60, some ⟨1, 5, 50, 0, 50⟩⟩ 25 =
      Outcome.thrown ⟨[fixedPanel 50, splitterPanel 10], 60, some ⟨1, 5, 50, 0, 50⟩⟩ := by
    rw [_onDragEnd_eq _ _ _ _ rfl hm]
    simp only []
    rw [_resize_tail _ _ _ _ (by simp) (by norm_num)]
  refine ⟨?_, hend, ?_⟩
  · norm_num [_onDragStart, item, splitterPanel, VPanel.getHeight]
  · rw [hend]
    simp [Outcome.state]

/-! ## The heights `_resize` commits -/

theorem resizeLoop_nonneg (items : List (Nat × VPanel)) (r : ℚ) (m : List (Nat × ℚ))
    (hm : ∀ e ∈ m, 0 ≤ e.2) : ∀ e ∈ resizeLoop items r m, 0 ≤ e.2 := by
  induction items generalizing r m with
  | nil => exact hm
  | cons x rest ih =>
    obtain ⟨pid, panel⟩ := x
    have hm' : ∀ e ∈ (pid, max 0 (panel.getHeight - r)) :: m, 0 ≤ e.2 := by
      intro e he
      rcases List.mem_cons.mp he with h | h
      · rw [h]; exact le_max_left _ _
      · exact hm e h
    cases hs : panel.isSplitter with
    | true =>
      rw [resizeLoop_splitter _ _ _ _ _ hs]
      exact ih r m hm
    | false =>
      by_cases hb : r - panel.getHeight < 0
      · rw [resizeLoop_break _ _ _ _ _ hs hb]
        exact hm'
      · rw [resizeLoop_continue _ _ _ _ _ hs hb]
        exact ih _ _ hm'

theorem mem_of_lookup (m : List (Nat × ℚ)) (j : Nat) (h : ℚ) (hl : m.lookup j = some h) :
    (j, h) ∈ m := by
  induction m with
  | nil => simp at hl
  | cons e rest ih =>
    obtain ⟨k, v⟩ := e
    by_cases hk : k = j
    · subst hk
      rw [List.lookup_cons_self] at hl
      rw [← Option.some.inj hl]
      exact List.mem_cons_self _ _
    · rw [lookup_cons_ne _ _ _ _ hk] at hl
      exact List.mem_cons_of_mem _ (ih hl)

theorem mem_of_item (panels : List VPanel) (i : Nat) (x : Nat × VPanel)
    (h : item panels i = some x) : x.2 ∈ panels := by
  unfold item at h
  cases hp : panels[i]? with
  | none => simp [hp] at h
  | some p =>
    rw [hp] at h
    rw [← Option.some.inj h]
    exact List.getElem?_mem hp

theorem resizeMap_nonneg (panels : List VPanel) (i : Nat) (startY mouseY : ℚ)
    (hnn : ∀ p ∈ panels, 0 ≤ p.getHeight) (m : List (Nat × ℚ))
    (hm : resizeMap panels i startY mouseY = some m) : ∀ e ∈ m, 0 ≤ e.2 := by
  unfold resizeMap at hm
  simp only [] at hm
  cases hc : (if decide (mouseY > startY) = true then prev panels i else next panels i) with
  | none => rw [hc] at hm; simp at hm
  | some x =>
    obtain ⟨pid, g⟩ := x
    rw [hc] at hm
    have hg : g ∈ panels := by
      by_cases hdown : mouseY > startY
      · simp only [hdown, decide_True, if_true, prev] at hc
        by_cases h0 : i = 0
        · simp [h0] at hc
        · simp only [h0, if_false] at hc
          exact mem_of_item _ _ _ hc
      · simp only [hdown, decide_False, Bool.false_eq_true, if_false, next] at hc
        exact mem_of_item _ _ _ hc
    rw [← Option.some.inj hm]
    apply resizeLoop_nonneg
    intro e he
    rw [List.mem_singleton.mp he]
    exact add_nonneg (hnn g hg) (abs_nonneg _)

theorem commit_nonneg (panels : List VPanel) (m : List (Nat × ℚ))
    (hnn : ∀ p ∈ panels, 0 ≤ p.getHeight) (hm : ∀ e ∈ m, 0 ≤ e.2) :
    ∀ p ∈ commit panels m, 0 ≤ p.getHeight := by
  intro p hp
  obtain ⟨x, hx, hxp⟩ := List.mem_map.mp hp
  rw [← hxp]
  unfold commitItem
  cases hl : m.lookup x.1 with
  | none => exact hnn _ (List.snd_mem_of_mem_enumFrom hx)
  | some h => exact hm _ (mem_of_lookup _ _ _ hl)

/-- C7 (non-negativity under resize). On a stack whose panel heights are all `≥ 0`,
for every dragged item and every `startY`, `mouseY`: every height in the map that
`_resize` builds and commits is `≥ 0`, and all panel heights are `≥ 0` once
`_resize` has been called (a call that throws commits nothing). -/
theorem resize_nonneg (panels : List VPanel) (i : Nat) (startY mouseY : ℚ)
    (hnn : ∀ p ∈ panels, 0 ≤ p.getHeight) :
    (∀ m, resizeMap panels i startY mouseY = some m → ∀ e ∈ m, 0 ≤ e.2) ∧
    (∀ p ∈ (_resize panels i startY mouseY).getD panels, 0 ≤ p.getHeight) := by
  refine ⟨fun m hm => resizeMap_nonneg panels i startY mouseY hnn m hm, ?_⟩
  unfold _resize
  cases hm : resizeMap panels i startY mouseY with
  | none => simpa using hnn
  | some m =>
    simp only [Option.map_some', Option.getD_some]
    exact commit_nonneg panels m hnn (resizeMap_nonneg panels i startY mouseY hnn m hm)

/-- C6, the code at the failing input: two splitters side by side, the lower one
dragged down by 20 from its top edge 60. The first panel to absorb is the upper
splitter, no `isSplitter` test guards it, and its height goes from 10 to 30. -/
theorem resize_grows_adjacent_splitter :
    _resize [fixedPanel 50, splitterPanel 10, splitterPanel 10, fixedPanel 50] 2 60 80 =
      some [fixedPanel 50, splitterPanel 30, splitterPanel 10, fixedPanel 30] := by
  have h := _resize_down [fixedPanel 50] [splitterPanel 10, fixedPanel 50] (splitterPanel 10)
    2 60 80 rfl (by norm_num)
  simp only [List.cons_append, List.nil_append] at h
  rw [h]
  norm_num [cascade, fixedPanel, splitterPanel, VPanel.isSplitter, VPanel.getHeight,
    VPanel.setHeight]

/-- C7 on the stack `[A(50), splitter, B(50), C(50)]` dragged down by 70. -/
theorem resize_nonneg_witness :
    (∀ p ∈ [fixedPanel 50, splitterPanel 0, fixedPanel 50, fixedPanel 50], 0 ≤ p.getHeight) ∧
    (∀ m, resizeMap [fixedPanel 50, splitterPanel 0, fixedPanel 50, fixedPanel 50] 1 50 120 =
      some m → ∀ e ∈ m, 0 ≤ e.2) ∧
    (∀ p ∈ (_resize [fixedPanel 50, splitterPanel 0, fixedPanel 50, fixedPanel 50] 1 50
      120).getD [fixedPanel 50, splitterPanel 0, fixedPanel 50, fixedPanel 50],
      0 ≤ p.getHeight) := by
  have hnn : ∀ p ∈ [fixedPanel 50, splitterPanel 0, fixedPanel 50, fixedPanel 50],
      0 ≤ p.getHeight := by
    intro p hp
    simp only [List.mem_cons, List.mem_singleton, List.not_mem_nil, or_false] at hp
    rcases hp with h | h | h | h <;> rw [h] <;>
      norm_num [fixedPanel, splitterPanel, VPanel.getHeight]
  exact ⟨hnn, resize_nonneg _ 1 50 120 hnn⟩

/-! ## The shape of the stack around the dragged splitter -/

theorem split_prev (panels : List VPanel) (i : Nat) (s : VPanel) (hs : panels[i]? = some s)
    (hi : 0 < i) :
    ∃ pre g, panels = pre ++ g :: s :: panels.drop (i + 1) ∧ i = pre.length + 1 ∧
      panels.take i = pre ++ [g] := by
  obtain ⟨hsplit, hlen⟩ := split_at panels i s hs
  rcases List.eq_nil_or_concat (panels.take i) with hnil | ⟨pre, g, hpre⟩
  · rw [hnil] at hlen
    simp at hlen
    omega
  · rw [List.concat_eq_append] at hpre
    refine ⟨pre, g, ?_, ?_, hpre⟩
    · conv_lhs => rw [hsplit, hpre]
      simp
    · rw [← hlen, hpre]
      simp

theorem split_next (panels : List VPanel) (i : Nat) (s : VPanel) (hs : panels[i]? = some s)
    (hi : i + 1 < panels.length) :
    ∃ g post, panels = panels.take i ++ s :: g :: post ∧ panels.drop (i + 1) = g :: post := by
  obtain ⟨hsplit, -⟩ := split_at panels i s hs
  cases hd : panels.drop (i + 1) with
  | nil =>
    have := congrArg List.length hd
    simp at this
    omega
  | cons g post =>
    refine ⟨g, post, ?_, rfl⟩
    conv_lhs => rw [hsplit, hd]

theorem cascade_length (l : List VPanel) (r : ℚ) : (cascade l r).length = l.length := by
  induction l generalizing r with
  | nil => rfl
  | cons p rest ih =>
    cases hs : p.isSplitter with
    | true => simp [cascade_splitter _ _ _ hs, ih]
    | false =>
      by_cases hb : r - p.getHeight < 0
      · simp [cascade_break _ _ _ hs hb]
      · simp [cascade_continue _ _ _ hs hb, ih]

/-- `_resize` dragging a splitter down, on the stack spelled out. -/
theorem _resize_down_splitter (pre post : List VPanel) (g s : VPanel) (startY mouseY : ℚ)
    (hspl : s.isSplitter = true) (h : mouseY > startY) :
    _resize (pre ++ g :: s :: post) (pre.length + 1) startY mouseY =
      some (pre ++ g.setHeight (g.getHeight + |startY - mouseY|) :: s ::
        cascade post |startY - mouseY|) := by
  rw [_resize_down pre (s :: post) g _ startY mouseY rfl h, cascade_splitter _ _ _ hspl]

/-- `_resize` dragging a splitter up, or not at all, on the stack spelled out. -/
theorem _resize_up_splitter (pre post : List VPanel) (g s : VPanel) (startY mouseY : ℚ)
    (hspl : s.isSplitter = true) (h : ¬ mouseY > startY) :
    _resize (pre ++ s :: g :: post) pre.length startY mouseY =
      some ((cascade pre.reverse |startY - mouseY|).reverse ++ s ::
        g.setHeight (g.getHeight + |startY - mouseY|) :: post) := by
  have hres := _resize_up (pre ++ [s]) post g pre.length startY mouseY (by simp) h
  simp only [List.append_assoc, List.singleton_append, List.reverse_append,
    List.reverse_cons, List.reverse_nil, List.nil_append] at hres
  rw [hres, cascade_splitter _ _ _ hspl]
  simp

theorem shrinkSide_down (pre post : List VPanel) (g s : VPanel) :
    shrinkSide (pre ++ g :: s :: post) (pre.length + 1) true = post := by
  have h : pre ++ g :: s :: post = (pre ++ [g, s]) ++ post := by simp
  rw [shrinkSide, if_pos rfl, h]
  apply List.drop_left'
  simp

theorem shrinkSide_up (pre post : List VPanel) :
    shrinkSide (pre ++ post) pre.length false = pre.reverse := by
  simp [shrinkSide]

/-! ## The cascade, panel by panel -/

theorem totalHeight_nonneg (l : List VPanel) (hnn : ∀ p ∈ l, 0 ≤ p.getHeight) :
    0 ≤ totalHeight l := by
  induction l with
  | nil => simp [totalHeight]
  | cons p rest ih =>
    rw [totalHeight_cons]
    exact add_nonneg (hnn p (List.mem_cons_self _ _))
      (ih fun q hq => hnn q (List.mem_cons_of_mem _ hq))

theorem contentPanels_cons_splitter (p : VPanel) (l : List VPanel)
    (hs : p.isSplitter = true) : contentPanels (p :: l) = contentPanels l := by
  simp [contentPanels, hs]

theorem contentPanels_cons_content (p : VPanel) (l : List VPanel)
    (hs : p.isSplitter = false) : contentPanels (p :: l) = p :: contentPanels l := by
  simp [contentPanels, hs]

theorem contentPanels_nonneg (l : List VPanel) (hnn : ∀ p ∈ l, 0 ≤ p.getHeight) :
    ∀ p ∈ contentPanels l, 0 ≤ p.getHeight :=
  fun p hp => hnn p (List.mem_of_mem_filter hp)

/-- The `k`-th content panel met by the cascade: with `r` owed at the start and
`r - (h_1 + ... + h_(k-1))` still owed when the panel is met, it is cut down to
`max 0 (h_k - owed)` if the amount owed is `≥ 0`, and is left alone otherwise. -/
theorem cascade_content_get (l : List VPanel) (r : ℚ) (h0 : 0 ≤ r)
    (hnn : ∀ p ∈ l, 0 ≤ p.getHeight) (k : Nat) (c : VPanel)
    (hk : (contentPanels l)[k]? = some c) :
    (contentPanels (cascade l r))[k]? =
      some (c.setHeight
        (if 0 ≤ r - totalHeight ((contentPanels l).take k) then
          max 0 (c.getHeight - (r - totalHeight ((contentPanels l).take k)))
        else c.getHeight)) := by
  induction l generalizing r k with
  | nil => simp [contentPanels] at hk
  | cons p rest ih =>
    have hrest : ∀ q ∈ rest, 0 ≤ q.getHeight := fun q hq => hnn q (List.mem_cons_of_mem _ hq)
    cases hs : p.isSplitter with
    | true =>
      rw [contentPanels_cons_splitter _ _ hs] at hk ⊢
      rw [cascade_splitter _ _ _ hs, contentPanels_cons_splitter _ _ hs]
      exact ih r h0 hrest k hk
    | false =>
      rw [contentPanels_cons_content _ _ hs] at hk ⊢
      have hs' : (p.setHeight (max 0 (p.getHeight - r))).isSplitter = false := hs
      cases k with
      | zero =>
        have hc : p = c := by simpa using hk
        subst hc
        by_cases hb : r - p.getHeight < 0
        · rw [cascade_break _ _ _ hs hb, contentPanels_cons_content _ _ hs']
          simp [totalHeight, h0]
        · rw [cascade_continue _ _ _ hs hb, contentPanels_cons_content _ _ hs']
          simp [totalHeight, h0]
      | succ k =>
        have hk' : (contentPanels rest)[k]? = some c := by simpa using hk
        have htake : totalHeight ((p :: contentPanels rest).take (k + 1)) =
            p.getHeight + totalHeight ((contentPanels rest).take k) := by
          rw [List.take_succ_cons, totalHeight_cons]
        have hT : 0 ≤ totalHeight ((contentPanels rest).take k) :=
          totalHeight_nonneg _ fun q hq =>
            contentPanels_nonneg rest hrest q (List.mem_of_mem_take hq)
        rw [htake]
        by_cases hb : r - p.getHeight < 0
        · rw [cascade_break _ _ _ hs hb, contentPanels_cons_content _ _ hs']
          have hneg : ¬ 0 ≤ r - (p.getHeight + totalHeight ((contentPanels rest).take k)) := by
            linarith
          simp only [List.getElem?_cons_succ, hk', hneg, if_false,
            setHeight_getHeight]
        · rw [cascade_continue _ _ _ hs hb, contentPanels_cons_content _ _ hs']
          simp only [List.getElem?_cons_succ]
          rw [ih (r - p.getHeight) (not_lt.mp hb) hrest k hk', sub_sub]

theorem shrinkSide_up_of_length (pre post : List VPanel) (n : Nat) (hn : n = pre.length) :
    shrinkSide (pre ++ post) n false = pre.reverse := by
  rw [hn, shrinkSide_up]

/-- C2, the claim as stated fails: a splitter at the head of the stack dragged down
by 30. `_resize` throws on the missing neighbour above, nothing is committed, and
the first panel below keeps its height 50 where the claim gives `max 0 (50 - 30)`. -/
theorem cascade_not_run_at_head :
    _resize [splitterPanel 10, fixedPanel 50] 0 0 30 = none ∧
    ((contentPanels (shrinkSide
      ((_resize [splitterPanel 10, fixedPanel 50] 0 0 30).getD
        [splitterPanel 10, fixedPanel 50]) 0 true))[0]?).map VPanel.getHeight = some 50 ∧
    max (0 : ℚ) (50 - (|0 - 30| - 0)) ≠ 50 := by
  have h := _resize_head [splitterPanel 10, fixedPanel 50] 0 30 (by norm_num)
  refine ⟨h, ?_, ?_⟩
  · rw [h]
    simp [shrinkSide, contentPanels, fixedPanel, VPanel.isSplitter, VPanel.getHeight]
  · norm_num [abs_of_nonpos]

/-- C2 as amended. For every stack with non-negative heights, every dragged splitter
that has a neighbour on the side that grows (a panel before it when
`mouseY > startY`, a panel after it otherwise) and every `startY`, `mouseY`:
`_resize` completes, and with `c_1, c_2, ...` the non-splitter panels met walking
away from the splitter on the side the boundary moves toward, of heights
`h_1, h_2, ...`, the new height of `c_k` is `max 0 (h_k - r_k)` when
`r_k = |startY - mouseY| - (h_1 + ... + h_(k-1))` is `≥ 0`, and `h_k` when
`r_k < 0`; nothing else of `c_k` changes. -/
theorem cascade_heights (panels : List VPanel) (i : Nat) (s : VPanel) (startY mouseY : ℚ)
    (hnn : ∀ p ∈ panels, 0 ≤ p.getHeight)
    (hs : panels[i]? = some s) (hspl : s.isSplitter = true)
    (hgrow : if mouseY > startY then 0 < i else i + 1 < panels.length) :
    ∃ panels', _resize panels i startY mouseY = some panels' ∧
      ∀ (k : Nat) (c : VPanel), (contentPanels (shrinkSide panels i (decide (mouseY > startY))))[k]? = some c →
        (contentPanels (shrinkSide panels' i (decide (mouseY > startY))))[k]? =
          some (c.setHeight
            (if 0 ≤ |startY - mouseY| - totalHeight
                ((contentPanels (shrinkSide panels i (decide (mouseY > startY)))).take k) then
              max 0 (c.getHeight - (|startY - mouseY| - totalHeight
                ((contentPanels (shrinkSide panels i (decide (mouseY > startY)))).take k)))
            else c.getHeight)) := by
  by_cases hdown : mouseY > startY
  · have hi : 0 < i := by simpa [hdown] using hgrow
    obtain ⟨pre, g, hsplit, hi', -⟩ := split_prev panels i s hs hi
    generalize panels.drop (i + 1) = post at hsplit
    subst hsplit hi'
    refine ⟨_, _resize_down_splitter pre post g s startY mouseY hspl hdown, ?_⟩
    intro k c hk
    simp only [hdown, decide_True, shrinkSide_down] at hk ⊢
    exact cascade_content_get post _ (abs_nonneg _)
      (fun p hp => hnn p (by simp [hp])) k c hk
  · have hi : i + 1 < panels.length := by simpa [hdown] using hgrow
    obtain ⟨g, post, hsplit, -⟩ := split_next panels i s hs hi
    obtain ⟨-, hlen⟩ := split_at panels i s hs
    generalize panels.take i = pre at hsplit hlen
    subst hsplit hlen
    refine ⟨_, _resize_up_splitter pre post g s startY mouseY hspl hdown, ?_⟩
    intro k c hk
    simp only [hdown, decide_False] at hk ⊢
    rw [shrinkSide_up] at hk
    rw [shrinkSide_up, shrinkSide_up_of_length _ _ _ (by simp [cascade_length]),
      List.reverse_reverse]
    exact cascade_content_get pre.reverse _ (abs_nonneg _)
      (fun p hp => hnn p (by simp [List.mem_reverse.mp hp])) k c hk

/-- The example of C2 and of the spec: `[A(50), splitter, B(50), C(50)]` dragged
down by 70 gives `A = 120`, `B = 0`, `C = 30`. -/
theorem resize_down_70 :
    _resize [fixedPanel 50, splitterPanel 0, fixedPanel 50, fixedPanel 50] 1 50 120 =
      some [fixedPanel 120, splitterPanel 0, fixedPanel 0, fixedPanel 30] := by
  have h := _resize_down_splitter [] [fixedPanel 50, fixedPanel 50] (fixedPanel 50)
    (splitterPanel 0) 50 120 rfl (by norm_num)
  simp only [List.nil_append, List.length_nil, zero_add] at h
  rw [h]
  norm_num [cascade, fixedPanel, splitterPanel, VPanel.isSplitter, VPanel.getHeight,
    VPanel.setHeight]

/-- The example of C3 and of the spec: `[A(50), splitter, B(50), C(50)]` dragged
down by 30 gives `A = 80`, `B = 20`, `C = 50`. -/
theorem resize_down_30 :
    _resize [fixedPanel 50, splitterPanel 0, fixedPanel 50, fixedPanel 50] 1 50 80 =
      some [fixedPanel 80, splitterPanel 0, fixedPanel 20, fixedPanel 50] := by
  have h := _resize_down_splitter [] [fixedPanel 50, fixedPanel 50] (fixedPanel 50)
    (splitterPanel 0) 50 80 rfl (by norm_num)
  simp only [List.nil_append, List.length_nil, zero_add] at h
  rw [h]
  norm_num [cascade, fixedPanel, splitterPanel, VPanel.isSplitter, VPanel.getHeight,
    VPanel.setHeight]

theorem nonneg_example :
    ∀ p ∈ [fixedPanel 50, splitterPanel 0, fixedPanel 50, fixedPanel 50], 0 ≤ p.getHeight := by
  intro p hp
  simp only [List.mem_cons, List.mem_singleton, List.not_mem_nil, or_false] at hp
  rcases hp with h | h | h | h <;> rw [h] <;>
    norm_num [fixedPanel, splitterPanel, VPanel.getHeight]

/-- C2 as amended, on the stack `[A(50), splitter, B(50), C(50)]` dragged down by
70. -/
theorem cascade_heights_witness :
    (∀ p ∈ [fixedPanel 50, splitterPanel 0, fixedPanel 50, fixedPanel 50], 0 ≤ p.getHeight) ∧
    [fixedPanel 50, splitterPanel 0, fixedPanel 50, fixedPanel 50][1]? =
      some (splitterPanel 0) ∧
    (splitterPanel 0).isSplitter = true ∧
    (if (120 : ℚ) > 50 then 0 < 1
      else 1 + 1 < [fixedPanel 50, splitterPanel 0, fixedPanel 50, fixedPanel 50].length) ∧
    ∃ panels',
      _resize [fixedPanel 50, splitterPanel 0, fixedPanel 50, fixedPanel 50] 1 50 120 =
        some panels' ∧
      ∀ (k : Nat) (c : VPanel), (contentPanels (shrinkSide
          [fixedPanel 50, splitterPanel 0, fixedPanel 50, fixedPanel 50] 1
          (decide ((120 : ℚ) > 50))))[k]? = some c →
        (contentPanels (shrinkSide panels' 1 (decide ((120 : ℚ) > 50))))[k]? =
          some (c.setHeight
            (if 0 ≤ |(50 : ℚ) - 120| - totalHeight ((contentPanels (shrinkSide
                [fixedPanel 50, splitterPanel 0, fixedPanel 50, fixedPanel 50] 1
                (decide ((120 : ℚ) > 50)))).take k) then
              max 0 (c.getHeight - (|(50 : ℚ) - 120| - totalHeight ((contentPanels (shrinkSide
                [fixedPanel 50, splitterPanel 0, fixedPanel 50, fixedPanel 50] 1
                (decide ((120 : ℚ) > 50)))).take k)))
            else c.getHeight)) :=
  ⟨nonneg_example, rfl, rfl, by norm_num,
    cascade_heights _ 1 (splitterPanel 0) 50 120 nonneg_example rfl rfl (by norm_num)⟩

/-! ## The two neighbours of the dragged splitter -/

theorem getElem?_append_zero (l rest : List VPanel) (a : VPanel) :
    (l ++ a :: rest)[l.length]? = some a := by
  rw [List.getElem?_append_right (le_refl _)]
  simp

theorem getElem?_append_one (l rest : List VPanel) (a b : VPanel) :
    (l ++ a :: b :: rest)[l.length + 1]? = some b := by
  rw [List.getElem?_append_right (Nat.le_add_right _ _)]
  simp

theorem getElem?_append_two (l rest : List VPanel) (a b c : VPanel) :
    (l ++ a :: b :: c :: rest)[l.length + 2]? = some c := by
  rw [List.getElem?_append_right (Nat.le_add_right _ _)]
  simp

theorem cascade_cons_eq (o : VPanel) (rest : List VPanel) (r : ℚ) :
    ∃ tail, cascade (o :: rest) r = cascadeFirst o r :: tail ∧ tail.length = rest.length := by
  unfold cascadeFirst
  cases hs : o.isSplitter with
  | true => exact ⟨_, cascade_splitter _ _ _ hs, cascade_length _ _⟩
  | false =>
    by_cases hb : r - o.getHeight < 0
    · exact ⟨rest, by rw [cascade_break _ _ _ hs hb]; simp, rfl⟩
    · exact ⟨cascade rest (r - o.getHeight), by rw [cascade_continue _ _ _ hs hb]; simp,
        cascade_length _ _⟩

theorem cascadeFirst_ne_grow (o : VPanel) (r : ℚ) (hr : 0 < r) (ho : 0 ≤ o.getHeight) :
    (cascadeFirst o r).getHeight ≠ o.getHeight + r := by
  unfold cascadeFirst
  cases hs : o.isSplitter with
  | true =>
    simp only [if_true]
    linarith
  | false =>
    simp only [Bool.false_eq_true, if_false, getHeight_setHeight]
    have h : max 0 (o.getHeight - r) < o.getHeight + r := max_lt (by linarith) (by linarith)
    exact ne_of_lt h

/-- C3, the claim as stated fails: `[A(50), splitter, B(50)]` with the pointer
released where it was pressed (`mouseY = startY = 50`). Both neighbours are set,
each to its current height plus `|startY - mouseY| = 0`, not exactly one. -/
theorem first_absorbing_both_at_rest :
    _resize [fixedPanel 50, splitterPanel 0, fixedPanel 50] 1 50 50 =
      some [(fixedPanel 50).setHeight ((fixedPanel 50).getHeight + |(50 : ℚ) - 50|),
        splitterPanel 0,
        (fixedPanel 50).setHeight ((fixedPanel 50).getHeight + |(50 : ℚ) - 50|)] := by
  have h := _resize_up_splitter [fixedPanel 50] [] (fixedPanel 50) (splitterPanel 0) 50 50
    rfl (by norm_num)
  simp only [List.cons_append, List.nil_append, List.length_cons, List.length_nil,
    zero_add] at h
  rw [h]
  norm_num [cascade, fixedPanel, splitterPanel, VPanel.isSplitter, VPanel.getHeight,
    VPanel.setHeight]

/-- C3 as amended. For every splitter that has a neighbour on each side and every
`startY`, `mouseY`, `_resize` completes and sets the height of one neighbour `g`,
the panel immediately preceding the splitter when `mouseY > startY` and the panel
immediately following it otherwise, to its current height plus
`|startY - mouseY|`. The other neighbour `o` keeps its height if it is a splitter
and is set to `max 0 (height - |startY - mouseY|)` otherwise; when
`mouseY ≠ startY` and the height of `o` is `≥ 0`, that is not its height plus
`|startY - mouseY|`, so exactly one neighbour is set to its height plus
`|startY - mouseY|`. -/
theorem first_absorbing_panel (panels : List VPanel) (i : Nat) (s : VPanel)
    (startY mouseY : ℚ) (hs : panels[i]? = some s) (hspl : s.isSplitter = true)
    (hprev : 0 < i) (hnext : i + 1 < panels.length) :
    ∃ panels' g o, _resize panels i startY mouseY = some panels' ∧
      panels[if mouseY > startY then i - 1 else i + 1]? = some g ∧
      panels[if mouseY > startY then i + 1 else i - 1]? = some o ∧
      panels'[if mouseY > startY then i - 1 else i + 1]? =
        some (g.setHeight (g.getHeight + |startY - mouseY|)) ∧
      panels'[if mouseY > startY then i + 1 else i - 1]? =
        some (if o.isSplitter then o
          else o.setHeight (max 0 (o.getHeight - |startY - mouseY|))) ∧
      (mouseY ≠ startY → 0 ≤ o.getHeight →
        (if o.isSplitter then o
          else o.setHeight (max 0 (o.getHeight - |startY - mouseY|))).getHeight ≠
          o.getHeight + |startY - mouseY|) := by
  have hne : ∀ o : VPanel, mouseY ≠ startY → 0 ≤ o.getHeight →
      (if o.isSplitter then o
        else o.setHeight (max 0 (o.getHeight - |startY - mouseY|))).getHeight ≠
        o.getHeight + |startY - mouseY| := by
    intro o hm ho
    exact cascadeFirst_ne_grow o _ (abs_pos.mpr (sub_ne_zero.mpr (Ne.symm hm))) ho
  by_cases hdown : mouseY > startY
  · obtain ⟨pre, g, hsplit, hi', -⟩ := split_prev panels i s hs hprev
    generalize panels.drop (i + 1) = post at hsplit
    subst hsplit hi'
    cases post with
    | nil => simp at hnext
    | cons o post =>
      obtain ⟨tail, hc, -⟩ := cascade_cons_eq o post |startY - mouseY|
      refine ⟨_, g, o, _resize_down_splitter pre (o :: post) g s startY mouseY hspl hdown,
        ?_, ?_, ?_, ?_, hne o⟩
      · simp only [hdown, if_true, Nat.add_sub_cancel]
        exact getElem?_append_zero _ _ _
      · simp only [hdown, if_true]
        exact getElem?_append_two _ _ _ _ _
      · simp only [hdown, if_true, Nat.add_sub_cancel]
        exact getElem?_append_zero _ _ _
      · simp only [hdown, if_true]
        rw [hc]
        exact getElem?_append_two _ _ _ _ _
  · obtain ⟨g, post, hsplit, -⟩ := split_next panels i s hs hnext
    obtain ⟨-, hlen⟩ := split_at panels i s hs
    generalize panels.take i = pre at hsplit hlen
    subst hsplit hlen
    rcases List.eq_nil_or_concat pre with hnil | ⟨pre', o, hpre⟩
    · rw [hnil] at hprev
      simp at hprev
    · rw [List.concat_eq_append] at hpre
      subst hpre
      obtain ⟨tail, hc, htail⟩ := cascade_cons_eq o pre'.reverse |startY - mouseY|
      have hres := _resize_up_splitter (pre' ++ [o]) post g s startY mouseY hspl hdown
      simp only [List.reverse_append, List.reverse_cons, List.reverse_nil, List.nil_append,
        List.singleton_append, hc, List.append_assoc] at hres
      have hlt : tail.reverse.length = pre'.length := by simp [htail]
      have hidx : (pre' ++ [o]).length - 1 = pre'.length := by simp
      have hidx' : (pre' ++ [o]).length + 1 = pre'.length + 2 := by simp
      simp only [List.append_assoc, List.singleton_append]
      refine ⟨_, g, o, hres, ?_, ?_, ?_, ?_, hne o⟩
      · simp only [hdown, if_false, hidx', List.append_assoc, List.singleton_append]
        exact getElem?_append_two _ _ _ _ _
      · simp only [hdown, if_false, hidx, List.append_assoc, List.singleton_append]
        exact getElem?_append_zero _ _ _
      · simp only [hdown, if_false, hidx']
        rw [← hlt]
        exact getElem?_append_two _ _ _ _ _
      · simp only [hdown, if_false, hidx]
        rw [← hlt]
        exact getElem?_append_zero _ _ _

/-- C3 as amended, on `[A(50), splitter, B(50), C(50)]` dragged down by 30. -/
theorem first_absorbing_panel_witness :
    [fixedPanel 50, splitterPanel 0, fixedPanel 50, fixedPanel 50][1]? =
      some (splitterPanel 0) ∧
    (splitterPanel 0).isSplitter = true ∧ 0 < 1 ∧
    1 + 1 < [fixedPanel 50, splitterPanel 0, fixedPanel 50, fixedPanel 50].length ∧
    ∃ panels' g o,
      _resize [fixedPanel 50, splitterPanel 0, fixedPanel 50, fixedPanel 50] 1 50 80 =
        some panels' ∧
      [fixedPanel 50, splitterPanel 0, fixedPanel 50, fixedPanel 50][
        if (80 : ℚ) > 50 then 1 - 1 else 1 + 1]? = some g ∧
      [fixedPanel 50, splitterPanel 0, fixedPanel 50, fixedPanel 50][
        if (80 : ℚ) > 50 then 1 + 1 else 1 - 1]? = some o ∧
      panels'[if (80 : ℚ) > 50 then 1 - 1 else 1 + 1]? =
        some (g.setHeight (g.getHeight + |(50 : ℚ) - 80|)) ∧
      panels'[if (80 : ℚ) > 50 then 1 + 1 else 1 - 1]? =
        some (if o.isSplitter then o
          else o.setHeight (max 0 (o.getHeight - |(50 : ℚ) - 80|))) ∧
      ((80 : ℚ) ≠ 50 → 0 ≤ o.getHeight →
        (if o.isSplitter then o
          else o.setHeight (max 0 (o.getHeight - |(50 : ℚ) - 80|))).getHeight ≠
          o.getHeight + |(50 : ℚ) - 80|) :=
  ⟨rfl, rfl, by decide, by decide,
    first_absorbing_panel _ 1 (splitterPanel 0) 50 80 rfl rfl (by decide) (by decide)⟩

/-! ## Conservation of the total height -/

theorem totalHeight_resize_of_le (panels : List VPanel) (i : Nat) (s : VPanel)
    (startY m u : ℚ) (hs : panels[i]? = some s) (hspl : s.isSplitter = true)
    (hstart : startY = totalHeight (panels.take i))
    (hu : ∀ p ∈ panels, p.isSplitter = true → p.getHeight = u)
    (hlo : u * splitterCount (panels.take i) ≤ m)
    (hhi : m ≤ totalHeight panels - s.getHeight - u * splitterCount (panels.drop (i + 1))) :
    totalHeight ((_resize panels i startY m).getD panels) = totalHeight panels := by
  obtain ⟨hsplit, hlen⟩ := split_at panels i s hs
  have hTpre := totalHeight_eq_content_add (panels.take i) u
    fun p hp => hu p (List.mem_of_mem_take hp)
  have hTpost := totalHeight_eq_content_add (panels.drop (i + 1)) u
    fun p hp => hu p (List.mem_of_mem_drop hp)
  have hH : totalHeight panels =
      totalHeight (panels.take i) + (s.getHeight + totalHeight (panels.drop (i + 1))) := by
    conv_lhs => rw [hsplit, totalHeight_append, totalHeight_cons]
  by_cases hdown : m > startY
  · have habs : |startY - m| = m - startY := by
      rw [abs_of_neg (by linarith)]
      ring
    by_cases hi : i = 0
    · subst hi
      rw [_resize_head _ _ _ hdown]
      rfl
    · obtain ⟨pre, g, hsplit', hi', htake⟩ := split_prev panels i s hs (Nat.pos_of_ne_zero hi)
      have hle : |startY - m| ≤ contentHeight (panels.drop (i + 1)) := by
        rw [habs]
        linarith
      generalize panels.drop (i + 1) = post at hsplit' hle
      subst hi'
      have hres := _resize_down_splitter pre post g s startY m hspl hdown
      rw [← hsplit'] at hres
      rw [hres, Option.getD_some]
      conv_rhs => rw [hsplit']
      simp only [totalHeight_append, totalHeight_cons, getHeight_setHeight,
        totalHeight_cascade post _ (abs_nonneg _) hle]
      ring
  · have habs : |startY - m| = startY - m := abs_of_nonneg (by linarith)
    by_cases hi : panels.length ≤ i + 1
    · rw [_resize_tail _ _ _ _ hi hdown]
      rfl
    · obtain ⟨g, post, hsplit', -⟩ := split_next panels i s hs (not_le.mp hi)
      have hle : |startY - m| ≤ contentHeight (panels.take i).reverse := by
        rw [habs, contentHeight_reverse]
        linarith
      generalize panels.take i = pre at hsplit' hlen hle
      subst hlen
      have hres := _resize_up_splitter pre post g s startY m hspl hdown
      rw [← hsplit'] at hres
      rw [hres, Option.getD_some]
      conv_rhs => rw [hsplit']
      simp only [totalHeight_append, totalHeight_cons, getHeight_setHeight,
        totalHeight_reverse, totalHeight_cascade pre.reverse _ (abs_nonneg _) hle]
      ring

theorem _onDragEnd_panels (v : VLayout) (d : DragData) (y m : ℚ) (hd : v.dragData = some d)
    (hm : finalMouseY v.panels d y = some m) :
    (_onDragEnd v y).state.panels = (_resize v.panels d.splItem d.startY m).getD v.panels := by
  rw [_onDragEnd_eq v d y m hd hm]
  cases _resize v.panels d.splItem d.startY m <;> rfl

theorem _onDragEnd_viewHeight (v : VLayout) (y : ℚ) :
    (_onDragEnd v y).state.viewHeight = v.viewHeight := by
  unfold _onDragEnd
  cases v.dragData with
  | none => rfl
  | some d =>
    simp only []
    cases finalMouseY v.panels d y with
    | none => rfl
    | some m =>
      simp only []
      cases _resize v.panels d.splItem d.startY m <;> rfl

/-- A committed drag keeps the sum of the heights: the session is the one
`_onDragStart` opens on a splitter at its top edge, the heights are `≥ 0` and sum
to the container height, and all splitters are as high as the dragged one. -/
theorem totalHeight_onDragEnd (v : VLayout) (d : DragData) (y : ℚ) (s : VPanel)
    (hd : v.dragData = some d) (hs : v.panels[d.splItem]? = some s)
    (hspl : s.isSplitter = true)
    (hu : ∀ p ∈ v.panels, p.isSplitter = true → p.getHeight = s.getHeight)
    (hnn : ∀ p ∈ v.panels, 0 ≤ p.getHeight)
    (hsum : totalHeight v.panels = v.viewHeight)
    (hstart : d.startY = totalHeight (v.panels.take d.splItem))
    (hmin : d.minY = 0) (hmax : d.maxY = v.viewHeight - s.getHeight) :
    totalHeight (_onDragEnd v y).state.panels = v.viewHeight := by
  have ha := aside_at v.panels d.splItem s hs
  have hm := finalMouseY_eq v.panels d y _ _ ha
  obtain ⟨hsplit, -⟩ := split_at v.panels d.splItem s hs
  have hTpre := totalHeight_eq_content_add (v.panels.take d.splItem) s.getHeight
    fun p hp => hu p (List.mem_of_mem_take hp)
  have hTpost := totalHeight_eq_content_add (v.panels.drop (d.splItem + 1)) s.getHeight
    fun p hp => hu p (List.mem_of_mem_drop hp)
  have hCpre := contentHeight_nonneg (v.panels.take d.splItem)
    fun p hp => hnn p (List.mem_of_mem_take hp)
  have hCpost := contentHeight_nonneg (v.panels.drop (d.splItem + 1))
    fun p hp => hnn p (List.mem_of_mem_drop hp)
  have hH : totalHeight v.panels = totalHeight (v.panels.take d.splItem) +
      (s.getHeight + totalHeight (v.panels.drop (d.splItem + 1))) := by
    conv_lhs => rw [hsplit, totalHeight_append, totalHeight_cons]
  rw [_onDragEnd_panels v d y _ hd hm, ← hsum]
  apply totalHeight_resize_of_le v.panels d.splItem s d.startY _ s.getHeight hs hspl hstart hu
  · have h := le_limit (_getMouseY d y)
      (d.minY + s.getHeight * splitterCount (v.panels.take d.splItem))
      (d.maxY - s.getHeight * splitterCount (v.panels.drop (d.splItem + 1)))
      (by rw [hmin, hmax, ← hsum]; linarith)
    linarith
  · have h := limit_le (_getMouseY d y)
      (d.minY + s.getHeight * splitterCount (v.panels.take d.splItem))
      (d.maxY - s.getHeight * splitterCount (v.panels.drop (d.splItem + 1)))
    linarith

theorem refresh_of_no_auto (v : VLayout) (h : ¬ ∃ p ∈ v.panels, p.autoHeight = true) :
    (refresh v).panels = v.panels := by
  rw [refresh_panels]
  conv_rhs => rw [← List.map_id v.panels]
  apply List.map_congr_left
  intro p hp
  have : p.autoHeight = false := by
    cases ha : p.autoHeight with
    | false => rfl
    | true => exact absurd ⟨p, hp, ha⟩ h
  simp [this]

theorem totalHeight_refresh (v : VLayout) (h : ∃ p ∈ v.panels, p.autoHeight = true) :
    totalHeight (refresh v).panels = v.viewHeight := by
  have hpos : (0 : ℚ) < autoCount v.panels := by exact_mod_cast autoCount_pos v.panels h
  rw [refresh_panels, totalHeight_fill, fillHeight, mul_div_cancel₀ _ (ne_of_gt hpos)]
  ring

theorem totalHeight_step (v : VLayout) (op : Op) (hsum : totalHeight v.panels = v.viewHeight)
    (hreg : Regular v op) :
    totalHeight (step v op).panels = v.viewHeight ∧ (step v op).viewHeight = v.viewHeight := by
  cases op with
  | refresh =>
    refine ⟨?_, rfl⟩
    by_cases h : ∃ p ∈ v.panels, p.autoHeight = true
    · exact totalHeight_refresh v h
    · show totalHeight (refresh v).panels = v.viewHeight
      rw [refresh_of_no_auto v h, hsum]
  | drag splID splOffsetY pressY releaseY =>
    obtain ⟨hnn, ⟨s, hs, hspl, hu⟩, hstart⟩ := hreg
    have hstartD : _onDragStart v splID splOffsetY pressY =
        Outcome.done ⟨v.panels, v.viewHeight,
          some ⟨splID, splOffsetY, pressY - splOffsetY, 0, v.viewHeight - s.getHeight⟩⟩ := by
      simp [_onDragStart, item, hs]
    show totalHeight (dragAndRelease v splID splOffsetY pressY releaseY).panels = v.viewHeight ∧
      (dragAndRelease v splID splOffsetY pressY releaseY).viewHeight = v.viewHeight
    unfold dragAndRelease
    rw [hstartD]
    exact ⟨totalHeight_onDragEnd _ _ releaseY s rfl hs hspl hu hnn hsum hstart rfl rfl,
      _onDragEnd_viewHeight _ _⟩

theorem totalHeight_run (ops : List Op) (v : VLayout)
    (hsum : totalHeight v.panels = v.viewHeight) (hreg : RegularRun v ops) :
    totalHeight (run v ops).panels = v.viewHeight := by
  induction ops generalizing v with
  | nil => exact hsum
  | cons op ops ih =>
    obtain ⟨h1, h2⟩ := totalHeight_step v op hsum hreg.1
    have := ih (step v op) (h1.trans h2.symm) hreg.2
    rw [h2] at this
    exact this

/-- C1, the claim as stated fails. A stack without an `autoHeight` panel is left
as it is by `refresh`: one panel of height 50 in a container of height 100 still
sums to 50. And a committed drag can lose height: in `[splitter(20), A(30),
splitter(10), B(40)]`, which sums to the container height 100, the lower splitter
pressed at its top edge 50 and released at the top is clamped to 10 only (one
splitter above, counted at the dragged splitter's height), `A` can give 30 of the
displacement 40, and the heights sum to 110 afterwards. -/
theorem total_height_not_kept :
    totalHeight (refresh ⟨[fixedPanel 50], 100, none⟩).panels = 50 ∧
    totalHeight (refresh ⟨[fixedPanel 50], 100, none⟩).panels ≠
      (refresh ⟨[fixedPanel 50], 100, none⟩).viewHeight ∧
    totalHeight [splitterPanel 20, fixedPanel 30, splitterPanel 10, fixedPanel 40] = 100 ∧
    totalHeight (dragAndRelease
      ⟨[splitterPanel 20, fixedPanel 30, splitterPanel 10, fixedPanel 40], 100, none⟩
      2 0 50 0).panels = 110 := by
  have h50 : totalHeight (refresh ⟨[fixedPanel 50], 100, none⟩).panels = 50 := by
    rw [refresh_of_no_auto]
    · norm_num [totalHeight, fixedPanel, VPanel.getHeight]
    · simp [fixedPanel]
  refine ⟨h50, ?_, ?_, ?_⟩
  · rw [h50]
    show (50 : ℚ) ≠ 100
    norm_num
  · norm_num [totalHeight, fixedPanel, splitterPanel, VPanel.getHeight]
  · have hstart : _onDragStart
        ⟨[splitterPanel 20, fixedPanel 30, splitterPanel 10, fixedPanel 40], 100, none⟩ 2 0 50 =
        Outcome.done ⟨[splitterPanel 20, fixedPanel 30, splitterPanel 10, fixedPanel 40], 100,
          some ⟨2, 0, 50, 0, 90⟩⟩ := by
      norm_num [_onDragStart, item, splitterPanel, VPanel.getHeight]
    have ha := aside_eq [splitterPanel 20, fixedPanel 30] [fixedPanel 40] (splitterPanel 10)
    simp only [List.length_cons, List.length_nil, List.cons_append, List.nil_append] at ha
    have hm : finalMouseY [splitterPanel 20, fixedPanel 30, splitterPanel 10, fixedPanel 40]
        ⟨2, 0, 50, 0, 90⟩ 0 = some 10 := by
      rw [finalMouseY_eq _ _ _ _ _ ha]
      norm_num [limit, _getMouseY, splitterCount, fixedPanel, splitterPanel,
        VPanel.isSplitter, VPanel.getHeight]
    have hres := _resize_up_splitter [splitterPanel 20, fixedPanel 30] [] (fixedPanel 40)
      (splitterPanel 10) 50 10 rfl (by norm_num)
    simp only [List.length_cons, List.length_nil, List.cons_append, List.nil_append] at hres
    unfold dragAndRelease
    rw [hstart]
    simp only []
    rw [_onDragEnd_panels _ _ _ _ rfl hm]
    simp only []
    rw [hres]
    norm_num [cascade, totalHeight, fixedPanel, splitterPanel, VPanel.isSplitter,
      VPanel.getHeight, VPanel.setHeight]

/-- C1 as amended. For every stack with at least one `autoHeight` panel and every
container height, the heights of all panels sum to the container height after
`refresh`. From a layout whose heights sum to the container height they still do
after any sequence of refreshes and committed drags (`_onDragStart`, then
`_onDragEnd` clamping the release position and calling `_resize`) in which every
drag is regular: the heights are all `≥ 0`, the dragged item is a splitter, every
splitter is as high as the dragged one, and `startY` is the sum of the heights of
the panels before the dragged splitter. -/
theorem total_height_conserved (v : VLayout) :
    ((∃ p ∈ v.panels, p.autoHeight = true) →
      totalHeight (refresh v).panels = v.viewHeight) ∧
    (∀ ops : List Op, totalHeight v.panels = v.viewHeight → RegularRun v ops →
      totalHeight (run v ops).panels = v.viewHeight) :=
  ⟨totalHeight_refresh v, fun ops hsum hreg => totalHeight_run ops v hsum hreg⟩

/-- C1 as amended, on `[A(40), splitter(10), auto]` in a container of height 150:
a refresh, and from the heights `40, 10, 100` a drag of the splitter followed by a
refresh. -/
theorem total_height_conserved_witness :
    (∃ p ∈ [fixedPanel 40, splitterPanel 10, autoPanel 100], p.autoHeight = true) ∧
    totalHeight (refresh ⟨[fixedPanel 40, splitterPanel 10, autoPanel 100], 150, none⟩).panels =
      150 ∧
    totalHeight [fixedPanel 40, splitterPanel 10, autoPanel 100] = 150 ∧
    RegularRun ⟨[fixedPanel 40, splitterPanel 10, autoPanel 100], 150, none⟩
      [Op.drag 1 0 40 500, Op.refresh] ∧
    totalHeight (run ⟨[fixedPanel 40, splitterPanel 10, autoPanel 100], 150, none⟩
      [Op.drag 1 0 40 500, Op.refresh]).panels = 150 := by
  have hauto : ∃ p ∈ [fixedPanel 40, splitterPanel 10, autoPanel 100], p.autoHeight = true :=
    ⟨autoPanel 100, by simp, rfl⟩
  have hsum : totalHeight [fixedPanel 40, splitterPanel 10, autoPanel 100] = 150 := by
    norm_num [totalHeight, fixedPanel, splitterPanel, autoPanel, VPanel.getHeight]
  have hreg : RegularRun ⟨[fixedPanel 40, splitterPanel 10, autoPanel 100], 150, none⟩
      [Op.drag 1 0 40 500, Op.refresh] := by
    refine ⟨⟨?_, ⟨splitterPanel 10, rfl, rfl, ?_⟩, ?_⟩, trivial, trivial⟩
    · intro p hp
      simp only [List.mem_cons, List.mem_singleton, List.not_mem_nil, or_false] at hp
      rcases hp with h | h | h <;> rw [h] <;>
        norm_num [fixedPanel, splitterPanel, autoPanel, VPanel.getHeight]
    · intro p hp hsp
      simp only [List.mem_cons, List.mem_singleton, List.not_mem_nil, or_false] at hp
      rcases hp with h | h | h
      · rw [h] at hsp
        exact absurd hsp (by decide)
      · rw [h]
      · rw [h] at hsp
        exact absurd hsp (by decide)
    · norm_num [totalHeight, fixedPanel, VPanel.getHeight]
  exact ⟨hauto,
    (total_height_conserved ⟨[fixedPanel 40, splitterPanel 10, autoPanel 100], 150, none⟩).1 hauto,
    hsum,
    hreg,
    (total_height_conserved ⟨[fixedPanel 40, splitterPanel 10, autoPanel 100], 150, none⟩).2 _ hsum hreg⟩

/-! ## More on `refresh` -/

/-- C13 (refresh without auto panels is a no-op). For every stack with no panel
marked `autoHeight` and every container height, `refresh` leaves the layout, and
so every panel's height, as it was. -/
theorem refresh_no_auto_noop (v : VLayout) (h : ∀ p ∈ v.panels, p.autoHeight = false) :
    refresh v = v := by
  have hno : ¬ ∃ p ∈ v.panels, p.autoHeight = true := by
    rintro ⟨p, hp, ha⟩
    rw [h p hp] at ha
    exact Bool.false_ne_true ha
  have hv : refresh v = ⟨(refresh v).panels, v.viewHeight, v.dragData⟩ := rfl
  rw [hv, refresh_of_no_auto v hno]

/-- C13 on a stack of two panels and a splitter in a container of height 500. -/
theorem refresh_no_auto_noop_witness :
    (∀ p ∈ [fixedPanel 50, splitterPanel 10, fixedPanel 40], p.autoHeight = false) ∧
    refresh ⟨[fixedPanel 50, splitterPanel 10, fixedPanel 40], 500, none⟩ =
      ⟨[fixedPanel 50, splitterPanel 10, fixedPanel 40], 500, none⟩ := by
  have h : ∀ p ∈ [fixedPanel 50, splitterPanel 10, fixedPanel 40], p.autoHeight = false := by
    intro p hp
    simp only [List.mem_cons, List.mem_singleton, List.not_mem_nil, or_false] at hp
    rcases hp with h | h | h <;> rw [h] <;> rfl
  exact ⟨h, refresh_no_auto_noop ⟨[fixedPanel 50, splitterPanel 10, fixedPanel 40], 500, none⟩ h⟩

/-- C12, the code at the failing input: a panel of height 100 and an `autoHeight`
panel with the default `minHeight = 0`, in a container of height 50. All heights
and the container height are `≥ 0`; `refresh` gives the `autoHeight` panel
`(50 - 100) / 1 = -50` with no floor, a height below 0 and below the panel's
`minHeight`. -/
theorem refresh_negative_fill :
    (∀ p ∈ [fixedPanel 100, autoPanel 0], 0 ≤ p.getHeight) ∧ (0 : ℚ) ≤ 50 ∧
    (autoPanel 0).minHeight = 0 ∧
    (refresh ⟨[fixedPanel 100, autoPanel 0], 50, none⟩).panels =
      [fixedPanel 100, autoPanel (-50)] ∧
    ¬ 0 ≤ (autoPanel (-50)).getHeight ∧
    ¬ (autoPanel (-50)).minHeight ≤ (autoPanel (-50)).getHeight := by
  refine ⟨?_, by norm_num, rfl, ?_, by norm_num [autoPanel, VPanel.getHeight],
    by norm_num [autoPanel, VPanel.getHeight]⟩
  · intro p hp
    simp only [List.mem_cons, List.mem_singleton, List.not_mem_nil, or_false] at hp
    rcases hp with h | h <;> rw [h] <;> norm_num [fixedPanel, autoPanel, VPanel.getHeight]
  · rw [refresh_panels]
    norm_num [fillHeight, autoCount, totalHeight, fixedPanel, autoPanel, VPanel.setHeight,
      VPanel.getHeight]

/-! ## When `_resize` throws -/

theorem resizeMap_eq_none_iff (panels : List VPanel) (i : Nat) (startY mouseY : ℚ) :
    resizeMap panels i startY mouseY = none ↔
      (if mouseY > startY then prev panels i else next panels i) = none := by
  unfold resizeMap
  simp only []
  by_cases hdown : mouseY > startY
  · simp only [hdown, decide_True, if_true]
    cases prev panels i <;> simp
  · simp only [hdown, decide_False, Bool.false_eq_true, if_false]
    cases next panels i <;> simp

theorem item_eq_none_iff (panels : List VPanel) (i : Nat) :
    item panels i = none ↔ panels.length ≤ i := by
  simp [item]

/-- C17. For every stack and dragged splitter, `_resize` throws exactly when
`mouseY > startY` and the splitter is the first panel of the stack, or
`mouseY ≤ startY` and the splitter is the last panel; in every other case it
builds a height map and commits it. -/
theorem resize_fails_iff (panels : List VPanel) (i : Nat) (s : VPanel) (startY mouseY : ℚ)
    (hs : panels[i]? = some s) :
    (_resize panels i startY mouseY = none ↔
      (mouseY > startY ∧ i = 0) ∨ (mouseY ≤ startY ∧ i + 1 = panels.length)) ∧
    (¬ ((mouseY > startY ∧ i = 0) ∨ (mouseY ≤ startY ∧ i + 1 = panels.length)) →
      ∃ m, resizeMap panels i startY mouseY = some m ∧
        _resize panels i startY mouseY = some (commit panels m)) := by
  have hlt : i < panels.length := (List.getElem?_eq_some_iff.mp hs).1
  have hiff : resizeMap panels i startY mouseY = none ↔
      (mouseY > startY ∧ i = 0) ∨ (mouseY ≤ startY ∧ i + 1 = panels.length) := by
    rw [resizeMap_eq_none_iff]
    by_cases hdown : mouseY > startY
    · have hnle : ¬ mouseY ≤ startY := not_le.mpr hdown
      simp only [hdown, if_true, true_and, hnle, false_and, or_false]
      unfold prev
      by_cases h0 : i = 0
      · simp [h0]
      · simp only [h0, if_false, item_eq_none_iff, iff_false, not_le]
        omega
    · have hle : mouseY ≤ startY := not_lt.mp hdown
      simp only [hdown, if_false, false_and, hle, true_and, false_or]
      unfold next
      rw [item_eq_none_iff]
      omega
  constructor
  · rw [← hiff]
    unfold _resize
    cases resizeMap panels i startY mouseY <;> simp
  · intro hnot
    rw [← hiff] at hnot
    cases hm : resizeMap panels i startY mouseY with
    | none => exact absurd hm hnot
    | some m => exact ⟨m, rfl, by simp [_resize, hm]⟩

/-- C17 on `[A(50), splitter, B(50), C(50)]`: the splitter has a panel on either
side and `_resize` completes in both directions. -/
theorem resize_fails_iff_witness :
    [fixedPanel 50, splitterPanel 0, fixedPanel 50, fixedPanel 50][1]? =
      some (splitterPanel 0) ∧
    _resize [fixedPanel 50, splitterPanel 0, fixedPanel 50, fixedPanel 50] 1 50 120 ≠ none ∧
    _resize [fixedPanel 50, splitterPanel 0, fixedPanel 50, fixedPanel 50] 1 50 20 ≠ none := by
  refine ⟨rfl, ?_, ?_⟩
  · rw [Ne, (resize_fails_iff _ 1 (splitterPanel 0) 50 120 rfl).1]
    simp
  · rw [Ne, (resize_fails_iff _ 1 (splitterPanel 0) 50 20 rfl).1]
    simp

/-! ## A release in place -/

theorem cascade_zero (l : List VPanel) (hnn : ∀ p ∈ l, 0 ≤ p.getHeight) :
    cascade l 0 = l := by
  induction l with
  | nil => rfl
  | cons p rest ih =>
    have hrest := ih fun q hq => hnn q (List.mem_cons_of_mem _ hq)
    have hp := hnn p (List.mem_cons_self _ _)
    cases hs : p.isSplitter with
    | true => rw [cascade_splitter _ _ _ hs, hrest]
    | false =>
      by_cases hb : 0 - p.getHeight < 0
      · rw [cascade_break _ _ _ hs hb, sub_zero, max_eq_right hp, setHeight_getHeight]
      · have h0 : p.getHeight = 0 := le_antisymm (by linarith) hp
        rw [cascade_continue _ _ _ hs hb, sub_zero, max_eq_right hp, setHeight_getHeight,
          h0, sub_zero, hrest]

/-- C18 (zero displacement is the identity). For every stack with non-negative
heights and every dragged item that has a following panel, `_resize` with
`mouseY = startY` completes and leaves every panel, so every height, unchanged. -/
theorem resize_zero_identity (panels : List VPanel) (i : Nat) (s : VPanel) (y : ℚ)
    (hnn : ∀ p ∈ panels, 0 ≤ p.getHeight) (hs : panels[i]? = some s)
    (hnext : i + 1 < panels.length) :
    _resize panels i y y = some panels := by
  obtain ⟨g, post, hsplit, -⟩ := split_next panels i s hs hnext
  obtain ⟨-, hlen⟩ := split_at panels i s hs
  generalize panels.take i = pre at hsplit hlen
  subst hsplit hlen
  have hres := _resize_up (pre ++ [s]) post g pre.length y y (by simp) (lt_irrefl y)
  have hnn' : ∀ p ∈ (pre ++ [s]).reverse, 0 ≤ p.getHeight := by
    intro p hp
    apply hnn
    rw [List.mem_reverse] at hp
    rcases List.mem_append.mp hp with h | h
    · exact List.mem_append_left _ h
    · rw [List.mem_singleton.mp h]
      simp
  rw [sub_self, abs_zero, cascade_zero _ hnn', List.reverse_reverse, add_zero,
    setHeight_getHeight] at hres
  simpa using hres

/-- C18 on `[A(50), splitter, B(50), C(50)]` released where it was pressed. -/
theorem resize_zero_identity_witness :
    (∀ p ∈ [fixedPanel 50, splitterPanel 0, fixedPanel 50, fixedPanel 50], 0 ≤ p.getHeight) ∧
    [fixedPanel 50, splitterPanel 0, fixedPanel 50, fixedPanel 50][1]? =
      some (splitterPanel 0) ∧
    1 + 1 < [fixedPanel 50, splitterPanel 0, fixedPanel 50, fixedPanel 50].length ∧
    _resize [fixedPanel 50, splitterPanel 0, fixedPanel 50, fixedPanel 50] 1 50 50 =
      some [fixedPanel 50, splitterPanel 0, fixedPanel 50, fixedPanel 50] :=
  ⟨nonneg_example, rfl, by decide,
    resize_zero_identity _ 1 (splitterPanel 0) 50 nonneg_example rfl (by decide)⟩

/-! ## The total height after `_resize` -/

/-- The cascade takes from the panels what is owed, as far as their content goes. -/
theorem totalHeight_cascade_min (l : List VPanel) (r : ℚ) (hnn : ∀ p ∈ l, 0 ≤ p.getHeight)
    (h0 : 0 ≤ r) : totalHeight (cascade l r) = totalHeight l - min r (contentHeight l) := by
  induction l generalizing r with
  | nil => simp [cascade, contentHeight, totalHeight, h0]
  | cons p rest ih =>
    have hrest : ∀ q ∈ rest, 0 ≤ q.getHeight := fun q hq => hnn q (List.mem_cons_of_mem _ hq)
    have hC := contentHeight_nonneg rest hrest
    cases hs : p.isSplitter with
    | true =>
      rw [cascade_splitter _ _ _ hs, contentHeight_cons_splitter _ _ hs, totalHeight_cons,
        totalHeight_cons, ih r hrest h0]
      ring
    | false =>
      rw [contentHeight_cons_content _ _ hs]
      by_cases hb : r - p.getHeight < 0
      · rw [cascade_break _ _ _ hs hb, totalHeight_cons, totalHeight_cons,
          getHeight_setHeight, max_eq_right (by linarith), min_eq_left (by linarith)]
        ring
      · have hb' : 0 ≤ r - p.getHeight := not_lt.mp hb
        rw [cascade_continue _ _ _ hs hb, totalHeight_cons, totalHeight_cons,
          getHeight_setHeight, max_eq_left (by linarith), ih _ hrest hb']
        rcases le_total (r - p.getHeight) (contentHeight rest) with h | h
        · rw [min_eq_left h, min_eq_left (by linarith)]
          ring
        · rw [min_eq_right h, min_eq_right (by linarith)]
          ring

theorem sub_min_eq_max (d c : ℚ) : d - min d c = max 0 (d - c) := by
  rcases le_total d c with h | h
  · rw [min_eq_left h, max_eq_left (by linarith)]
    ring
  · rw [min_eq_right h, max_eq_right (by linarith)]

theorem max_sub_eq_zero_iff (d c : ℚ) : max 0 (d - c) = 0 ↔ d ≤ c := by
  constructor
  · intro h
    have := le_max_right 0 (d - c)
    linarith
  · intro h
    exact max_eq_left (by linarith)

/-- C15 (dropped remainder). For every stack with non-negative heights, every
dragged splitter with a neighbour on the side that grows and every displacement
`d = |startY - mouseY|`, `_resize` completes and the total height afterwards is the
total before plus `max 0 (d - S)`, with `S` the sum of the heights of the
non-splitter panels on the shrink side; the total is kept exactly when `d ≤ S`. -/
theorem resize_total (panels : List VPanel) (i : Nat) (s : VPanel) (startY mouseY : ℚ)
    (hnn : ∀ p ∈ panels, 0 ≤ p.getHeight)
    (hs : panels[i]? = some s) (hspl : s.isSplitter = true)
    (hgrow : if mouseY > startY then 0 < i else i + 1 < panels.length) :
    ∃ panels', _resize panels i startY mouseY = some panels' ∧
      totalHeight panels' = totalHeight panels +
        max 0 (|startY - mouseY| -
          contentHeight (shrinkSide panels i (decide (mouseY > startY)))) ∧
      (totalHeight panels' = totalHeight panels ↔
        |startY - mouseY| ≤ contentHeight (shrinkSide panels i (decide (mouseY > startY)))) := by
  have key : ∀ panels' : List VPanel,
      totalHeight panels' = totalHeight panels +
        max 0 (|startY - mouseY| -
          contentHeight (shrinkSide panels i (decide (mouseY > startY)))) →
      (totalHeight panels' = totalHeight panels ↔
        |startY - mouseY| ≤
          contentHeight (shrinkSide panels i (decide (mouseY > startY)))) := by
    intro panels' h
    rw [← max_sub_eq_zero_iff, h]
    constructor
    · intro h'
      linarith
    · intro h'
      rw [h', add_zero]
  by_cases hdown : mouseY > startY
  · have hi : 0 < i := by simpa [hdown] using hgrow
    obtain ⟨pre, g, hsplit, hi', -⟩ := split_prev panels i s hs hi
    generalize panels.drop (i + 1) = post at hsplit
    subst hsplit hi'
    have htot : totalHeight (pre ++ g.setHeight (g.getHeight + |startY - mouseY|) :: s ::
        cascade post |startY - mouseY|) = totalHeight (pre ++ g :: s :: post) +
        max 0 (|startY - mouseY| - contentHeight
          (shrinkSide (pre ++ g :: s :: post) (pre.length + 1) (decide (mouseY > startY)))) := by
      simp only [hdown, decide_True, shrinkSide_down, ← sub_min_eq_max, totalHeight_append,
        totalHeight_cons, getHeight_setHeight]
      rw [totalHeight_cascade_min post _ (fun p hp => hnn p (by simp [hp])) (abs_nonneg _)]
      ring
    exact ⟨_, _resize_down_splitter pre post g s startY mouseY hspl hdown, htot, key _ htot⟩
  · have hi : i + 1 < panels.length := by simpa [hdown] using hgrow
    obtain ⟨g, post, hsplit, -⟩ := split_next panels i s hs hi
    obtain ⟨-, hlen⟩ := split_at panels i s hs
    generalize panels.take i = pre at hsplit hlen
    subst hsplit hlen
    have htot : totalHeight ((cascade pre.reverse |startY - mouseY|).reverse ++ s ::
        g.setHeight (g.getHeight + |startY - mouseY|) :: post) =
        totalHeight (pre ++ s :: g :: post) +
        max 0 (|startY - mouseY| - contentHeight
          (shrinkSide (pre ++ s :: g :: post) pre.length (decide (mouseY > startY)))) := by
      simp only [hdown, decide_False, shrinkSide_up, ← sub_min_eq_max, totalHeight_append,
        totalHeight_cons, getHeight_setHeight, totalHeight_reverse]
      rw [totalHeight_cascade_min pre.reverse _
        (fun p hp => hnn p (by simp [List.mem_reverse.mp hp])) (abs_nonneg _),
        totalHeight_reverse]
      ring
    exact ⟨_, _resize_up_splitter pre post g s startY mouseY hspl hdown, htot, key _ htot⟩

/-- C15 on `[A(50), splitter, B(50), C(50)]` dragged down by 70 (`S = 100`). -/
theorem resize_total_witness :
    (∀ p ∈ [fixedPanel 50, splitterPanel 0, fixedPanel 50, fixedPanel 50], 0 ≤ p.getHeight) ∧
    [fixedPanel 50, splitterPanel 0, fixedPanel 50, fixedPanel 50][1]? =
      some (splitterPanel 0) ∧
    (splitterPanel 0).isSplitter = true ∧
    (if (120 : ℚ) > 50 then 0 < 1
      else 1 + 1 < [fixedPanel 50, splitterPanel 0, fixedPanel 50, fixedPanel 50].length) ∧
    ∃ panels',
      _resize [fixedPanel 50, splitterPanel 0, fixedPanel 50, fixedPanel 50] 1 50 120 =
        some panels' ∧
      totalHeight panels' =
        totalHeight [fixedPanel 50, splitterPanel 0, fixedPanel 50, fixedPanel 50] +
        max 0 (|(50 : ℚ) - 120| - contentHeight (shrinkSide
          [fixedPanel 50, splitterPanel 0, fixedPanel 50, fixedPanel 50] 1
          (decide ((120 : ℚ) > 50)))) ∧
      (totalHeight panels' =
          totalHeight [fixedPanel 50, splitterPanel 0, fixedPanel 50, fixedPanel 50] ↔
        |(50 : ℚ) - 120| ≤ contentHeight (shrinkSide
          [fixedPanel 50, splitterPanel 0, fixedPanel 50, fixedPanel 50] 1
          (decide ((120 : ℚ) > 50)))) :=
  ⟨nonneg_example, rfl, rfl, by norm_num,
    resize_total _ 1 (splitterPanel 0) 50 120 nonneg_example rfl rfl (by norm_num)⟩

/-- A drag beyond what the shrink side holds: `[A(50), splitter, B(50)]` dragged
down by 70 sums to 170 afterwards, `70 - 50` more than before. -/
theorem resize_drops_remainder :
    _resize [fixedPanel 50, splitterPanel 0, fixedPanel 50] 1 50 120 =
      some [fixedPanel 120, splitterPanel 0, fixedPanel 0] := by
  have h := _resize_down_splitter [] [fixedPanel 50] (fixedPanel 50)
    (splitterPanel 0) 50 120 rfl (by norm_num)
  simp only [List.nil_append, List.length_nil, zero_add] at h
  rw [h]
  norm_num [cascade, fixedPanel, splitterPanel, VPanel.isSplitter, VPanel.getHeight,
    VPanel.setHeight]

/-! ## Where the splitter lands, and what stays in place -/

/-- C16 (the splitter lands where it was released). For every stack, with
non-negative heights or not, in which the dragged splitter has a neighbour on each
side and `startY` is the sum of the heights of the panels before the splitter, and
every `mouseY` whose displacement `|startY - mouseY|` does not exceed the total
height of the non-splitter panels on the shrink side, `_resize` completes and
afterwards the heights of the panels before the splitter sum to `mouseY`. -/
theorem splitter_lands_at_release (panels : List VPanel) (i : Nat) (s : VPanel)
    (startY mouseY : ℚ)
    (hs : panels[i]? = some s) (hspl : s.isSplitter = true)
    (hprev : 0 < i) (hnext : i + 1 < panels.length)
    (hstart : startY = totalHeight (panels.take i))
    (hd : |startY - mouseY| ≤
      contentHeight (shrinkSide panels i (decide (mouseY > startY)))) :
    ∃ panels', _resize panels i startY mouseY = some panels' ∧
      totalHeight (panels'.take i) = mouseY := by
  by_cases hdown : mouseY > startY
  · have habs : |startY - mouseY| = mouseY - startY := by
      rw [abs_of_neg (by linarith)]
      ring
    obtain ⟨pre, g, hsplit, hi', htake⟩ := split_prev panels i s hs hprev
    rw [htake] at hstart
    generalize panels.drop (i + 1) = post at hsplit
    subst hsplit hi'
    refine ⟨_, _resize_down_splitter pre post g s startY mouseY hspl hdown, ?_⟩
    have hsplit' : pre ++ g.setHeight (g.getHeight + |startY - mouseY|) :: s ::
        cascade post |startY - mouseY| =
        (pre ++ [g.setHeight (g.getHeight + |startY - mouseY|)]) ++
          s :: cascade post |startY - mouseY| := by simp
    rw [hsplit', List.take_left' (by simp), totalHeight_append, totalHeight_cons,
      getHeight_setHeight, habs]
    rw [totalHeight_append, totalHeight_cons] at hstart
    simp only [totalHeight, List.map_nil, List.sum_nil] at hstart ⊢
    linarith
  · have habs : |startY - mouseY| = startY - mouseY := abs_of_nonneg (by linarith)
    obtain ⟨g, post, hsplit, -⟩ := split_next panels i s hs hnext
    obtain ⟨-, hlen⟩ := split_at panels i s hs
    generalize panels.take i = pre at hsplit hlen hstart
    subst hsplit hlen
    simp only [hdown, decide_False, shrinkSide_up] at hd
    refine ⟨_, _resize_up_splitter pre post g s startY mouseY hspl hdown, ?_⟩
    rw [List.take_left' (by simp [cascade_length]), totalHeight_reverse,
      totalHeight_cascade _ _ (abs_nonneg _) hd, totalHeight_reverse, habs]
    linarith

/-- C16 on `[A(50), splitter, B(50), C(50)]` pressed at 50 and released at 120. -/
theorem splitter_lands_at_release_witness :
    [fixedPanel 50, splitterPanel 0, fixedPanel 50, fixedPanel 50][1]? =
      some (splitterPanel 0) ∧
    (splitterPanel 0).isSplitter = true ∧ 0 < 1 ∧
    1 + 1 < [fixedPanel 50, splitterPanel 0, fixedPanel 50, fixedPanel 50].length ∧
    (50 : ℚ) = totalHeight
      ([fixedPanel 50, splitterPanel 0, fixedPanel 50, fixedPanel 50].take 1) ∧
    |(50 : ℚ) - 120| ≤ contentHeight (shrinkSide
      [fixedPanel 50, splitterPanel 0, fixedPanel 50, fixedPanel 50] 1
      (decide ((120 : ℚ) > 50))) ∧
    ∃ panels',
      _resize [fixedPanel 50, splitterPanel 0, fixedPanel 50, fixedPanel 50] 1 50 120 =
        some panels' ∧
      totalHeight (panels'.take 1) = 120 := by
  have hstart : (50 : ℚ) = totalHeight
      ([fixedPanel 50, splitterPanel 0, fixedPanel 50, fixedPanel 50].take 1) := by
    norm_num [totalHeight, fixedPanel, VPanel.getHeight]
  have hd : |(50 : ℚ) - 120| ≤ contentHeight (shrinkSide
      [fixedPanel 50, splitterPanel 0, fixedPanel 50, fixedPanel 50] 1
      (decide ((120 : ℚ) > 50))) := by
    norm_num [contentHeight, shrinkSide, totalHeight, fixedPanel, VPanel.getHeight,
      VPanel.isSplitter, abs_of_nonpos]
  exact ⟨rfl, rfl, by decide, by decide, hstart, hd,
    splitter_lands_at_release _ 1 (splitterPanel 0) 50 120 rfl rfl
      (by decide) (by decide) hstart hd⟩

/-- C19 (grow-side frame). For every stack, every dragged splitter with a
neighbour on the side that grows and every `startY`, `mouseY`: `_resize` completes,
the dragged splitter is left as it was, and so is every panel on the grow side
other than the splitter's immediate neighbour there, the panels before the
preceding neighbour when `mouseY > startY` and the panels after the following
neighbour otherwise. -/
theorem grow_side_frame (panels : List VPanel) (i : Nat) (s : VPanel) (startY mouseY : ℚ)
    (hs : panels[i]? = some s) (hspl : s.isSplitter = true)
    (hgrow : if mouseY > startY then 0 < i else i + 1 < panels.length) :
    ∃ panels', _resize panels i startY mouseY = some panels' ∧
      panels'.length = panels.length ∧
      panels'[i]? = some s ∧
      (mouseY > startY → panels'.take (i - 1) = panels.take (i - 1)) ∧
      (¬ mouseY > startY → panels'.drop (i + 2) = panels.drop (i + 2)) := by
  by_cases hdown : mouseY > startY
  · have hi : 0 < i := by simpa [hdown] using hgrow
    obtain ⟨pre, g, hsplit, hi', -⟩ := split_prev panels i s hs hi
    generalize panels.drop (i + 1) = post at hsplit
    subst hsplit hi'
    refine ⟨_, _resize_down_splitter pre post g s startY mouseY hspl hdown, ?_, ?_, ?_, ?_⟩
    · simp [cascade_length]
    · exact getElem?_append_one _ _ _ _
    · intro _
      rw [Nat.add_sub_cancel, List.take_left' rfl, List.take_left' rfl]
    · intro h
      exact absurd hdown h
  · have hi : i + 1 < panels.length := by simpa [hdown] using hgrow
    obtain ⟨g, post, hsplit, -⟩ := split_next panels i s hs hi
    obtain ⟨-, hlen⟩ := split_at panels i s hs
    generalize panels.take i = pre at hsplit hlen
    subst hsplit hlen
    have hl : (cascade pre.reverse |startY - mouseY|).reverse.length = pre.length := by
      simp [cascade_length]
    have hshape : ∀ (l : List VPanel) (a b : VPanel), l.length = pre.length →
        (l ++ a :: b :: post).drop (pre.length + 2) = post := by
      intro l a b hlen
      have h : l ++ a :: b :: post = (l ++ [a, b]) ++ post := by simp
      rw [h]
      exact List.drop_left' (by simp [hlen])
    refine ⟨_, _resize_up_splitter pre post g s startY mouseY hspl hdown, ?_, ?_, ?_, ?_⟩
    · simp [cascade_length]
    · rw [← hl]
      exact getElem?_append_zero _ _ _
    · intro h
      exact absurd h hdown
    · intro _
      rw [hshape _ _ _ hl, hshape _ _ _ rfl]

/-- C19 on `[A(50), splitter, B(50), C(50)]` dragged up by 30: the splitter and `C`
are left as they were. -/
theorem grow_side_frame_witness :
    [fixedPanel 50, splitterPanel 0, fixedPanel 50, fixedPanel 50][1]? =
      some (splitterPanel 0) ∧
    (splitterPanel 0).isSplitter = true ∧
    (if (20 : ℚ) > 50 then 0 < 1
      else 1 + 1 < [fixedPanel 50, splitterPanel 0, fixedPanel 50, fixedPanel 50].length) ∧
    ∃ panels',
      _resize [fixedPanel 50, splitterPanel 0, fixedPanel 50, fixedPanel 50] 1 50 20 =
        some panels' ∧
      panels'.length = [fixedPanel 50, splitterPanel 0, fixedPanel 50, fixedPanel 50].length ∧
      panels'[1]? = some (splitterPanel 0) ∧
      ((20 : ℚ) > 50 → panels'.take (1 - 1) =
        [fixedPanel 50, splitterPanel 0, fixedPanel 50, fixedPanel 50].take (1 - 1)) ∧
      (¬ (20 : ℚ) > 50 → panels'.drop (1 + 2) =
        [fixedPanel 50, splitterPanel 0, fixedPanel 50, fixedPanel 50].drop (1 + 2)) :=
  ⟨rfl, rfl, by norm_num,
    grow_side_frame _ 1 (splitterPanel 0) 50 20 rfl rfl (by norm_num)⟩

/-! ## The clamp of `_onDragEnd` and the cascade -/

theorem resize_some_of_neighbour (panels : List VPanel) (i : Nat) (s : VPanel)
    (startY mouseY : ℚ) (hs : panels[i]? = some s)
    (hgrow : if mouseY > startY then 0 < i else i + 1 < panels.length) :
    ∃ panels', _resize panels i startY mouseY = some panels' := by
  by_cases hdown : mouseY > startY
  · have hi : 0 < i := by simpa [hdown] using hgrow
    obtain ⟨pre, g, hsplit, hi', -⟩ := split_prev panels i s hs hi
    generalize panels.drop (i + 1) = post at hsplit
    subst hsplit
    exact ⟨_, _resize_down pre (s :: post) g i startY mouseY hi' hdown⟩
  · have hi : i + 1 < panels.length := by simpa [hdown] using hgrow
    obtain ⟨g, post, hsplit, -⟩ := split_next panels i s hs hi
    obtain ⟨-, hlen⟩ := split_at panels i s hs
    generalize panels.take i = pre at hsplit hlen
    subst hsplit hlen
    have h := _resize_up (pre ++ [s]) post g pre.length startY mouseY (by simp) hdown
    simp only [List.append_assoc, List.singleton_append] at h
    exact ⟨_, h⟩

/-- C14 (the clamp makes the cascade lossless). For every stack with non-negative
heights summing to the container height, in which all splitters have the same
height and the dragged splitter has a neighbour on each side, for a press at the
splitter's top edge (`startY` is the sum of the heights of the panels before the
dragged splitter) and every raw release position: the displacement
`|startY - mouseY|` that `_onDragEnd` hands to `_resize` is at most the total
height of the non-splitter panels on the shrink side, `_onDragEnd` runs to its end,
and the heights still sum to the container height after the commit. -/
theorem clamp_lossless (v : VLayout) (splID : Nat) (s : VPanel)
    (splOffsetY pressY releaseY : ℚ)
    (hnn : ∀ p ∈ v.panels, 0 ≤ p.getHeight)
    (hsum : totalHeight v.panels = v.viewHeight)
    (hs : v.panels[splID]? = some s) (hspl : s.isSplitter = true)
    (hu : ∀ p ∈ v.panels, p.isSplitter = true → p.getHeight = s.getHeight)
    (hprev : 0 < splID) (hnext : splID + 1 < v.panels.length)
    (hstart : pressY - splOffsetY = totalHeight (v.panels.take splID)) :
    ∃ d mouseY panels',
      _onDragStart v splID splOffsetY pressY =
        Outcome.done ⟨v.panels, v.viewHeight, some d⟩ ∧
      d.startY = totalHeight (v.panels.take splID) ∧
      finalMouseY v.panels d releaseY = some mouseY ∧
      |d.startY - mouseY| ≤
        contentHeight (shrinkSide v.panels splID (decide (mouseY > d.startY))) ∧
      _onDragEnd ⟨v.panels, v.viewHeight, some d⟩ releaseY =
        Outcome.done ⟨panels', v.viewHeight, none⟩ ∧
      totalHeight panels' = v.viewHeight := by
  have hstartD : _onDragStart v splID splOffsetY pressY =
      Outcome.done ⟨v.panels, v.viewHeight,
        some ⟨splID, splOffsetY, pressY - splOffsetY, 0, v.viewHeight - s.getHeight⟩⟩ := by
    simp [_onDragStart, item, hs]
  have ha := aside_at v.panels splID s hs
  have hm := finalMouseY_eq v.panels
    ⟨splID, splOffsetY, pressY - splOffsetY, 0, v.viewHeight - s.getHeight⟩ releaseY _ _ ha
  obtain ⟨hsplit, -⟩ := split_at v.panels splID s hs
  have hTpre := totalHeight_eq_content_add (v.panels.take splID) s.getHeight
    fun p hp => hu p (List.mem_of_mem_take hp)
  have hTpost := totalHeight_eq_content_add (v.panels.drop (splID + 1)) s.getHeight
    fun p hp => hu p (List.mem_of_mem_drop hp)
  have hCpre := contentHeight_nonneg (v.panels.take splID)
    fun p hp => hnn p (List.mem_of_mem_take hp)
  have hCpost := contentHeight_nonneg (v.panels.drop (splID + 1))
    fun p hp => hnn p (List.mem_of_mem_drop hp)
  have hH : totalHeight v.panels = totalHeight (v.panels.take splID) +
      (s.getHeight + totalHeight (v.panels.drop (splID + 1))) := by
    conv_lhs => rw [hsplit, totalHeight_append, totalHeight_cons]
  have hlo := le_limit
    (_getMouseY ⟨splID, splOffsetY, pressY - splOffsetY, 0, v.viewHeight - s.getHeight⟩
      releaseY)
    (0 + s.getHeight * splitterCount (v.panels.take splID))
    (v.viewHeight - s.getHeight - s.getHeight * splitterCount (v.panels.drop (splID + 1)))
    (by linarith)
  have hhi := limit_le
    (_getMouseY ⟨splID, splOffsetY, pressY - splOffsetY, 0, v.viewHeight - s.getHeight⟩
      releaseY)
    (0 + s.getHeight * splitterCount (v.panels.take splID))
    (v.viewHeight - s.getHeight - s.getHeight * splitterCount (v.panels.drop (splID + 1)))
  have hend := _onDragEnd_eq
    ⟨v.panels, v.viewHeight,
      some ⟨splID, splOffsetY, pressY - splOffsetY, 0, v.viewHeight - s.getHeight⟩⟩
    _ releaseY _ rfl hm
  have htot := totalHeight_onDragEnd
    ⟨v.panels, v.viewHeight,
      some ⟨splID, splOffsetY, pressY - splOffsetY, 0, v.viewHeight - s.getHeight⟩⟩
    _ releaseY s rfl hs hspl hu hnn hsum hstart rfl rfl
  obtain ⟨panels', hres⟩ := resize_some_of_neighbour v.panels splID s (pressY - splOffsetY)
    (limit
      (_getMouseY ⟨splID, splOffsetY, pressY - splOffsetY, 0, v.viewHeight - s.getHeight⟩
        releaseY)
      (0 + s.getHeight * splitterCount (v.panels.take splID))
      (v.viewHeight - s.getHeight - s.getHeight * splitterCount (v.panels.drop (splID + 1))))
    hs (by split_ifs <;> assumption)
  simp only [hres] at hend
  rw [hend] at htot
  refine ⟨_, _, panels', hstartD, hstart, hm, ?_, hend, htot⟩
  simp only []
  by_cases hdown : limit
      (_getMouseY ⟨splID, splOffsetY, pressY - splOffsetY, 0, v.viewHeight - s.getHeight⟩
        releaseY)
      (0 + s.getHeight * splitterCount (v.panels.take splID))
      (v.viewHeight - s.getHeight - s.getHeight * splitterCount (v.panels.drop (splID + 1))) >
      pressY - splOffsetY
  · simp only [hdown, decide_True, shrinkSide, if_true]
    rw [abs_of_neg (by linarith)]
    linarith
  · simp only [hdown, decide_False, shrinkSide, Bool.false_eq_true, if_false,
      contentHeight_reverse]
    rw [abs_of_nonneg (by linarith)]
    linarith

/-- C14 on `[A(50), splitter(10), B(90)]` in a container of height 150, the
splitter pressed at its top edge 50 and released far below. -/
theorem clamp_lossless_witness :
    (∀ p ∈ [fixedPanel 50, splitterPanel 10, fixedPanel 90], 0 ≤ p.getHeight) ∧
    totalHeight [fixedPanel 50, splitterPanel 10, fixedPanel 90] = 150 ∧
    [fixedPanel 50, splitterPanel 10, fixedPanel 90][1]? = some (splitterPanel 10) ∧
    (splitterPanel 10).isSplitter = true ∧
    (∀ p ∈ [fixedPanel 50, splitterPanel 10, fixedPanel 90],
      p.isSplitter = true → p.getHeight = (splitterPanel 10).getHeight) ∧
    0 < 1 ∧ 1 + 1 < [fixedPanel 50, splitterPanel 10, fixedPanel 90].length ∧
    (50 : ℚ) - 0 = totalHeight ([fixedPanel 50, splitterPanel 10, fixedPanel 90].take 1) ∧
    ∃ d mouseY panels',
      _onDragStart ⟨[fixedPanel 50, splitterPanel 10, fixedPanel 90], 150, none⟩ 1 0 50 =
        Outcome.done ⟨[fixedPanel 50, splitterPanel 10, fixedPanel 90], 150, some d⟩ ∧
      d.startY = totalHeight ([fixedPanel 50, splitterPanel 10, fixedPanel 90].take 1) ∧
      finalMouseY [fixedPanel 50, splitterPanel 10, fixedPanel 90] d 500 = some mouseY ∧
      |d.startY - mouseY| ≤ contentHeight
        (shrinkSide [fixedPanel 50, splitterPanel 10, fixedPanel 90] 1
          (decide (mouseY > d.startY))) ∧
      _onDragEnd ⟨[fixedPanel 50, splitterPanel 10, fixedPanel 90], 150, some d⟩ 500 =
        Outcome.done ⟨panels', 150, none⟩ ∧
      totalHeight panels' = 150 := by
  have hnn : ∀ p ∈ [fixedPanel 50, splitterPanel 10, fixedPanel 90], 0 ≤ p.getHeight := by
    intro p hp
    simp only [List.mem_cons, List.mem_singleton, List.not_mem_nil, or_false] at hp
    rcases hp with h | h | h <;> rw [h] <;>
      norm_num [fixedPanel, splitterPanel, VPanel.getHeight]
  have hsum : totalHeight [fixedPanel 50, splitterPanel 10, fixedPanel 90] = 150 := by
    norm_num [totalHeight, fixedPanel, splitterPanel, VPanel.getHeight]
  have hu : ∀ p ∈ [fixedPanel 50, splitterPanel 10, fixedPanel 90],
      p.isSplitter = true → p.getHeight = (splitterPanel 10).getHeight := by
    intro p hp hsp
    simp only [List.mem_cons, List.mem_singleton, List.not_mem_nil, or_false] at hp
    rcases hp with h | h | h
    · rw [h] at hsp
      exact absurd hsp (by decide)
    · rw [h]
    · rw [h] at hsp
      exact absurd hsp (by decide)
  have hstart : (50 : ℚ) - 0 =
      totalHeight ([fixedPanel 50, splitterPanel 10, fixedPanel 90].take 1) := by
    norm_num [totalHeight, fixedPanel, VPanel.getHeight]
  exact ⟨hnn, hsum, rfl, rfl, hu, by decide, by decide, hstart,
    clamp_lossless ⟨[fixedPanel 50, splitterPanel 10, fixedPanel 90], 150, none⟩ 1
      (splitterPanel 10) 0 50 500 hnn hsum rfl rfl hu (by decide) (by decide) hstart⟩

/-! ## The configured bounds -/

/-- C11, the code at the failing input: `[A, splitter, B]` with `A` of height 50
bounded by `maxHeight = 60` and `B` of height 50 bounded by `minHeight = 30`, every
panel within its bounds, the splitter dragged down by 30. `_resize` commits 80 for
`A`, above its `maxHeight`, and 20 for `B`, below its `minHeight`. -/
theorem resize_ignores_bounds :
    (∀ p ∈ [boundedPanel 50 0 60, splitterPanel 0, boundedPanel 50 30 1000],
      p.minHeight ≤ p.getHeight ∧ p.getHeight ≤ p.maxHeight) ∧
    _resize [boundedPanel 50 0 60, splitterPanel 0, boundedPanel 50 30 1000] 1 50 80 =
      some [boundedPanel 80 0 60, splitterPanel 0, boundedPanel 20 30 1000] ∧
    ¬ (boundedPanel 80 0 60).getHeight ≤ (boundedPanel 80 0 60).maxHeight ∧
    ¬ (boundedPanel 20 30 1000).minHeight ≤ (boundedPanel 20 30 1000).getHeight := by
  refine ⟨?_, ?_, by norm_num [boundedPanel, VPanel.getHeight],
    by norm_num [boundedPanel, VPanel.getHeight]⟩
  · intro p hp
    simp only [List.mem_cons, List.mem_singleton, List.not_mem_nil, or_false] at hp
    rcases hp with h | h | h <;> rw [h] <;>
      norm_num [boundedPanel, splitterPanel, VPanel.getHeight]
  · have h := _resize_down_splitter [] [boundedPanel 50 30 1000] (boundedPanel 50 0 60)
      (splitterPanel 0) 50 80 rfl (by norm_num)
    simp only [List.nil_append, List.length_nil, zero_add] at h
    rw [h]
    norm_num [cascade, boundedPanel, splitterPanel, VPanel.isSplitter, VPanel.getHeight,
      VPanel.setHeight]

end VLayout

